import Mathlib

/-!
Verification of the notebook sanitizer `src/sanitize_ipynb.py`.

The program operates on parsed JSON documents.  We embed the JSON value
universe as the inductive type `J` below (JSON has null, booleans, numbers,
strings, arrays and objects; notebook documents contain no floating-point
numbers anywhere the sanitizer inspects, so numbers are modelled as
integers, with Python booleans kept distinct from integers exactly as
`json.loads` keeps them).  Python dictionaries preserve insertion order, so
objects are modelled as ordered association lists; `json.loads` never
produces duplicate keys.

Each Lean definition carries a reference to the lines of
`src/sanitize_ipynb.py` that it translates.
-/

inductive J where
  | null : J
  | bool : Bool → J
  | int : Int → J
  | str : String → J
  | arr : List J → J
  | obj : List (String × J) → J

/-- Ordered association list standing for a Python `dict` parsed from JSON. -/
abbrev JObj := List (String × J)

mutual
/-- Structural (value) equality on `J`, as a boolean. -/
def jeq : J → J → Bool
  | .null, .null => true
  | .bool a, .bool b => a == b
  | .int a, .int b => a == b
  | .str a, .str b => a == b
  | .arr xs, .arr ys => jeqList xs ys
  | .obj xs, .obj ys => jeqKVs xs ys
  | _, _ => false
def jeqList : List J → List J → Bool
  | [], [] => true
  | x :: xs, y :: ys => jeq x y && jeqList xs ys
  | _, _ => false
def jeqKVs : List (String × J) → List (String × J) → Bool
  | [], [] => true
  | (k, v) :: xs, (l, w) :: ys => k == l && jeq v w && jeqKVs xs ys
  | _, _ => false
end

mutual
theorem jeq_iff : ∀ a b : J, jeq a b = true ↔ a = b
  | .null, .null => by simp [jeq]
  | .bool a, .bool b => by simp [jeq]
  | .int a, .int b => by simp [jeq]
  | .str a, .str b => by simp [jeq]
  | .arr xs, .arr ys => by
      simp only [jeq, jeqList_iff xs ys]
      constructor
      · intro h; rw [h]
      · intro h; cases h; rfl
  | .obj xs, .obj ys => by
      simp only [jeq, jeqKVs_iff xs ys]
      constructor
      · intro h; rw [h]
      · intro h; cases h; rfl
  | .null, .bool _ | .null, .int _ | .null, .str _ | .null, .arr _ | .null, .obj _ => by simp [jeq]
  | .bool _, .null | .bool _, .int _ | .bool _, .str _ | .bool _, .arr _ | .bool _, .obj _ => by simp [jeq]
  | .int _, .null | .int _, .bool _ | .int _, .str _ | .int _, .arr _ | .int _, .obj _ => by simp [jeq]
  | .str _, .null | .str _, .bool _ | .str _, .int _ | .str _, .arr _ | .str _, .obj _ => by simp [jeq]
  | .arr _, .null | .arr _, .bool _ | .arr _, .int _ | .arr _, .str _ | .arr _, .obj _ => by simp [jeq]
  | .obj _, .null | .obj _, .bool _ | .obj _, .int _ | .obj _, .str _ | .obj _, .arr _ => by simp [jeq]

theorem jeqList_iff : ∀ xs ys : List J, jeqList xs ys = true ↔ xs = ys
  | [], [] => by simp [jeqList]
  | x :: xs, y :: ys => by
      simp only [jeqList, Bool.and_eq_true, jeq_iff x y, jeqList_iff xs ys, List.cons.injEq]
  | [], _ :: _ => by simp [jeqList]
  | _ :: _, [] => by simp [jeqList]

theorem jeqKVs_iff : ∀ xs ys : List (String × J), jeqKVs xs ys = true ↔ xs = ys
  | [], [] => by simp [jeqKVs]
  | (k, v) :: xs, (l, w) :: ys => by
      simp only [jeqKVs, Bool.and_eq_true, beq_iff_eq, jeq_iff v w, jeqKVs_iff xs ys,
        List.cons.injEq, Prod.mk.injEq]
  | [], _ :: _ => by simp [jeqKVs]
  | _ :: _, [] => by simp [jeqKVs]
end

instance : DecidableEq J := fun a b => decidable_of_iff _ (jeq_iff a b)

/-- Key lookup in an ordered dict: Python `m[k]` / `k in m` (present iff `some`). -/
def jget : JObj → String → Option J
  | [], _ => none
  | (k1, v) :: rest, k => if k1 = k then some v else jget rest k

/-- Key assignment `m[k] = v`: replaces the value in place if the key is
present (keeping its position, as Python dicts do), else appends. -/
def jset : JObj → String → J → JObj
  | [], k, v => [(k, v)]
  | (k1, v1) :: rest, k, v => if k1 = k then (k, v) :: rest else (k1, v1) :: jset rest k v

/-- Python `m.get(k)`: `None` when the key is absent (JSON null and Python
`None` are the same object, `J.null`). -/
def pyGet (m : JObj) (k : String) : J := (jget m k).getD .null

/-- Python `k in m`. -/
def hasKey (m : JObj) (k : String) : Bool := (jget m k).isSome

mutual
/-- Python `==` on JSON values: `True == 1`, `False == 0`, dict comparison is
key-based and insertion-order-insensitive (dicts cannot carry duplicate
keys, and `json.loads` never produces them). -/
def pyEq : J → J → Bool
  | .null, .null => true
  | .bool a, .bool b => a == b
  | .bool a, .int n => (if a then (1 : Int) else 0) == n
  | .int n, .bool b => n == (if b then (1 : Int) else 0)
  | .int a, .int b => a == b
  | .str a, .str b => a == b
  | .arr xs, .arr ys => pyEqList xs ys
  | .obj xs, .obj ys => xs.length == ys.length && pyEqEntries xs ys
  | _, _ => false
def pyEqList : List J → List J → Bool
  | [], [] => true
  | x :: xs, y :: ys => pyEq x y && pyEqList xs ys
  | _, _ => false
def pyEqEntries : List (String × J) → JObj → Bool
  | [], _ => true
  | (k, v) :: rest, ys =>
      (match jget ys k with
       | some w => pyEq v w
       | none => false) && pyEqEntries rest ys
end

mutual
/-- Python `repr` of a JSON value (`str(x)` falls back to this for every
type the sanitizer feeds it except `str` itself).  String quoting is
rendered with plain single quotes; the sanitizer never compares or inspects
these rendered strings, it only stores them. -/
def pyRepr : J → String
  | .null => "None"
  | .bool true => "True"
  | .bool false => "False"
  | .int n => toString n
  | .str s => "\x27" ++ s ++ "\x27"
  | .arr xs => "[" ++ pyReprList xs ++ "]"
  | .obj kvs => "\x7b" ++ pyReprEntries kvs ++ "\x7d"
def pyReprList : List J → String
  | [] => ""
  | [x] => pyRepr x
  | x :: xs => pyRepr x ++ ", " ++ pyReprList xs
def pyReprEntries : List (String × J) → String
  | [] => ""
  | [(k, v)] => "\x27" ++ k ++ "\x27: " ++ pyRepr v
  | (k, v) :: kvs => "\x27" ++ k ++ "\x27: " ++ pyRepr v ++ ", " ++ pyReprEntries kvs
end

mutual
/-- Lines 20-23: the scalar coercer `to_s`.  A string is returned unchanged;
a list is recursively coerced and concatenated without separator; anything
else goes through Python `str()`, which for `None`, booleans, integers and
dicts is the `repr` rendering. -/
def to_s : J → String
  | .str s => s
  | .arr xs => to_sList xs
  | v => pyRepr v
/-- `"".join(to_s(i) for i in x)` from line 22. -/
def to_sList : List J → String
  | [] => ""
  | x :: xs => to_s x ++ to_sList xs
end

/-- Python `x is None` (key absent reads as `None` through `.get`). -/
def isNull : J → Bool
  | .null => true
  | _ => false

/-- Python `isinstance(x, str)`. -/
def isStrJ : J → Bool
  | .str _ => true
  | _ => false

/-- Python `isinstance(x, list)`. -/
def isArrJ : J → Bool
  | .arr _ => true
  | _ => false

/-- Python `isinstance(x, dict)`. -/
def isObjJ : J → Bool
  | .obj _ => true
  | _ => false

/-- Python `isinstance(x, int)` — booleans are a subclass of `int`. -/
def isPyInt : J → Bool
  | .int _ => true
  | .bool _ => true
  | _ => false

/-- Python truthiness of a JSON value. -/
def truthy : J → Bool
  | .null => false
  | .bool b => b
  | .int n => n != 0
  | .str s => !s.isEmpty
  | .arr xs => !xs.isEmpty
  | .obj kvs => !kvs.isEmpty

/-- Line 61: `cid is None or not isinstance(cid, str) or not cid`, negated —
the cell id is acceptable iff it is a non-empty string. -/
def idOk : J → Bool
  | .str s => !s.isEmpty
  | _ => false

/-- Character-list prefix test backing `startsWithS`. -/
def charsPre : List Char → List Char → Bool
  | [], _ => true
  | _ :: _, [] => false
  | c :: cs, d :: ds => c == d && charsPre cs ds

/-- Python `s.startswith(p)`. -/
def startsWithS (s p : String) : Bool := charsPre p.data s.data

/-- Line 117: `k.startswith("text/") or k == "text/plain" or k.startswith("image/")`. -/
def textualKey (k : String) : Bool :=
  startsWithS k "text/" || k == "text/plain" || startsWithS k "image/"

/-- Lines 30-31: force top-level `nbformat` to the integer 4. -/
def fixNbformat (raw : JObj) : JObj × Bool :=
  if pyEq (pyGet raw "nbformat") (.int 4) then (raw, false)
  else (jset raw "nbformat" (.int 4), true)

/-- Lines 32-33: force top-level `nbformat_minor` to be an `int` (Python
`isinstance`, so a boolean passes), defaulting to 5. -/
def fixNbformatMinor (raw : JObj) : JObj × Bool :=
  if isPyInt (pyGet raw "nbformat_minor") then (raw, false)
  else (jset raw "nbformat_minor" (.int 5), true)

/-- Lines 42: `"name" not in li or not isinstance(li["name"], str)`, negated. -/
def liNameOk (li : JObj) : Bool :=
  match jget li "name" with
  | some (.str _) => true
  | _ => false

/-- Lines 38-43: `metadata.language_info` handling. -/
def fixLanguageInfo (md : JObj) : JObj × Bool :=
  match pyGet md "language_info" with
  | .obj li =>
      if liNameOk li then (md, false)
      else (jset md "language_info" (.obj (jset li "name" (.str "python"))), true)
  | _ => (jset md "language_info" (.obj [("name", .str "python")]), true)

/-- Lines 44-50: `metadata.kernelspec` handling.  Only a `None` (or absent)
`name`/`display_name` is replaced; any other value is kept.  The Python code
mutates the nested dict in place, which is the final write-back here. -/
def fixKernelspec (md : JObj) : JObj × Bool :=
  match pyGet md "kernelspec" with
  | .obj ks =>
      let r1 := if isNull (pyGet ks "name")
                then (jset ks "name" (.str "python3"), true) else (ks, false)
      let r2 := if isNull (pyGet r1.1 "display_name")
                then (jset r1.1 "display_name" (.str "Python 3"), true) else (r1.1, false)
      (jset md "kernelspec" (.obj r2.1), r1.2 || r2.2)
  | _ => (jset md "kernelspec" (.obj [("name", .str "python3"), ("display_name", .str "Python 3")]), true)

/-- Lines 34-37 guard: `metadata` must be a dict, else it is replaced by
`{}` (flagged) and the nested fixes work on that fresh dict. -/
def metaBase (raw : JObj) : JObj × Bool :=
  match pyGet raw "metadata" with
  | .obj m => (m, false)
  | _ => ([], true)

/-- Lines 34-50: the whole top-level `metadata` block.  The nested fixes
mutate the metadata dict in place, which the final `jset` writes back. -/
def fixMetadata (raw : JObj) : JObj × Bool :=
  let m0 := metaBase raw
  let m1 := fixLanguageInfo m0.1
  let m2 := fixKernelspec m1.1
  (jset raw "metadata" (.obj m2.1), m0.2 || m1.2 || m2.2)

/-- The shape shared by lines 65-66, 106-107, 108-109, 139-141: if key `k`
is present and its value is not a string, coerce the value with `to_s`
(flagged). -/
def coerceStrKey (c : JObj) (k : String) : JObj × Bool :=
  match jget c k with
  | some (.str _) | none => (c, false)
  | some v => (jset c k (.str (to_s v)), true)

/-- The shape shared by lines 69-70, 87-88, 101-102: if key `k` is present
and its value is not a dict, replace the value with `{}` (flagged). -/
def coerceObjKey (c : JObj) (k : String) : JObj × Bool :=
  match jget c k with
  | some (.obj _) | none => (c, false)
  | some _ => (jset c k (.obj []), true)

/-- Lines 73-77: `metadata.tags` — if a list, drop `None` entries and coerce
the rest to strings, writing back only when the result differs (Python `!=`). -/
def fixTags (m : JObj) : JObj × Bool :=
  match pyGet m "tags" with
  | .arr ts =>
      let newTags := (ts.filter fun t => !isNull t).map fun t => J.str (to_s t)
      if pyEq (.arr newTags) (.arr ts) then (m, false)
      else (jset m "tags" (.arr newTags), true)
  | _ => (m, false)

/-- Lines 80-84: `metadata.execution` — if a dict, coerce every non-string
value to a string in place. -/
def fixExecution (m : JObj) : JObj × Bool :=
  match pyGet m "execution" with
  | .obj em =>
      let ch := em.any fun kv => !isStrJ kv.2
      let em1 := em.map fun kv => if isStrJ kv.2 then kv else (kv.1, J.str (to_s kv.2))
      (jset m "execution" (.obj em1), ch)
  | _ => (m, false)

/-- Lines 69-84 plus the in-place write-back: the per-cell metadata block.
The guard at line 69 reads `c.get("metadata", {})` and so tolerates an
absent key, but line 73 then reads `c["metadata"]`, which raises `KeyError`
when the key is absent — modelled as `none`. -/
def fixCellMetadata (c : JObj) : Option (JObj × Bool) :=
  let s3 := coerceObjKey c "metadata"
  match jget s3.1 "metadata" with
  | some (.obj m0) =>
      let t1 := fixTags m0
      let t2 := fixExecution t1.1
      some (jset s3.1 "metadata" (.obj t2.1), s3.2 || t1.2 || t2.2)
  | _ => none

/-- Lines 87-88: `attachments` on markdown/raw cells must be a dict when
present. -/
def fixAttachments (c : JObj) : JObj × Bool :=
  if pyEq (pyGet c "cell_type") (.str "markdown")
     || pyEq (pyGet c "cell_type") (.str "raw") then
    coerceObjKey c "attachments"
  else (c, false)

/-- The shape shared by lines 126-128 and 144-146: `execution_count`, when
present (not `None`) and not an `int` (a boolean passes `isinstance`), is
forced to null. -/
def fixExecCount (c : JObj) : JObj × Bool :=
  let e := pyGet c "execution_count"
  if isNull e || isPyInt e then (c, false) else (jset c "execution_count" .null, true)

/-- Lines 117-123: one `data` entry of a `display_data`/`execute_result`
output.  Textual and image MIME keys must map to strings; other keys keep
dict/list/string values and have any other scalar coerced. -/
def fixDataEntry (kv : String × J) : String × J :=
  if textualKey kv.1 then
    match kv.2 with
    | .str s => (kv.1, .str s)
    | v => (kv.1, .str (to_s v))
  else
    match kv.2 with
    | .obj o => (kv.1, .obj o)
    | .arr a => (kv.1, .arr a)
    | .str s => (kv.1, .str s)
    | v => (kv.1, .str (to_s v))

/-- Whether the entry makes lines 117-123 set the changed flag. -/
def dataEntryBad (kv : String × J) : Bool :=
  if textualKey kv.1 then !isStrJ kv.2
  else !(isObjJ kv.2 || isArrJ kv.2 || isStrJ kv.2)

/-- Lines 111-123: the `data` field of a `display_data`/`execute_result`
output.  `data = o.get("data") or {}` means a falsy value (absent, null,
`{}`, `[]`, `""`, `0`, `false`) is replaced by a fresh dict that is NOT
stored back into the output; only a truthy non-dict is stored back as `{}`. -/
def fixOutData (o : JObj) : JObj × Bool :=
  let d := pyGet o "data"
  if truthy d then
    match d with
    | .obj dm => (jset o "data" (.obj (dm.map fixDataEntry)), dm.any dataEntryBad)
    | _ => (jset o "data" (.obj []), true)
  else (o, false)

/-- Lines 133-136: `new_tb` — a list is coerced elementwise, a scalar is
wrapped in a singleton list. -/
def newTbOf (tb : J) : List J :=
  match tb with
  | .arr ts => ts.map fun t => J.str (to_s t)
  | _ => [J.str (to_s tb)]

/-- Lines 130-138: `traceback` of an `error` output — coerced via `newTbOf`,
written back only when different (Python `!=`). -/
def fixTraceback (o : JObj) : JObj × Bool :=
  match jget o "traceback" with
  | some tb =>
      if pyEq (.arr (newTbOf tb)) tb then (o, false)
      else (jset o "traceback" (.arr (newTbOf tb)), true)
  | none => (o, false)

/-- Lines 100-141: one entry of a code cell's `outputs` list in normalize
mode.  A non-dict entry makes Python raise `AttributeError` (`o.get`),
modelled as `none`. -/
def sanitizeOutput (o : J) : Option (J × Bool) :=
  match o with
  | .obj o0 =>
    let s1 := coerceObjKey o0 "metadata"
    let ot := pyGet s1.1 "output_type"
    if pyEq ot (.str "stream") then
      let s2 := coerceStrKey s1.1 "text"
      let s3 := coerceStrKey s2.1 "name"
      some (.obj s3.1, s1.2 || s2.2 || s3.2)
    else if pyEq ot (.str "display_data") || pyEq ot (.str "execute_result") then
      let s2 := fixOutData s1.1
      let s3 := if pyEq ot (.str "execute_result") then fixExecCount s2.1 else (s2.1, false)
      some (.obj s3.1, s1.2 || s2.2 || s3.2)
    else if pyEq ot (.str "error") then
      let s2 := fixTraceback s1.1
      let s3 := coerceStrKey s2.1 "ename"
      let s4 := coerceStrKey s3.1 "evalue"
      some (.obj s4.1, s1.2 || s2.2 || s3.2 || s4.2)
    else
      some (.obj s1.1, s1.2)
  | _ => none

/-- Line 100: the `for o in outs` loop. -/
def sanitizeOutputs : List J → Option (List J × Bool)
  | [] => some ([], false)
  | o :: os =>
    match sanitizeOutput o with
    | none => none
    | some r =>
      match sanitizeOutputs os with
      | none => none
      | some rs => some (r.1 :: rs.1, r.2 || rs.2)

/-- Lines 97-99 (plus the loop write-through): `outs = c.get("outputs") or []`.
A falsy `outputs` value (absent, null, `[]`, `{}`, `""`, `0`, `false`) is
left untouched — the fresh `[]` the loop runs over is not stored back into
the cell; only a truthy non-list value is replaced by `[]` (flagged). -/
def fixOutputsNormalize (c : JObj) : Option (JObj × Bool) :=
  let v := pyGet c "outputs"
  if truthy v then
    match v with
    | .arr os =>
        match sanitizeOutputs os with
        | none => none
        | some r => some (jset c "outputs" (.arr r.1), r.2)
    | _ => some (jset c "outputs" (.arr []), true)
  else some (c, false)

/-- Lines 92-96: strip mode.  `c["outputs"] = []` runs unconditionally (it
creates the key when absent) but `changed` is only flagged when the old
value was truthy; `execution_count` is nulled when it is not already
`None`/absent. -/
def stripOutputs (c : JObj) : JObj × Bool :=
  let ch1 := truthy (pyGet c "outputs")
  let c1 := jset c "outputs" (.arr [])
  let r2 : JObj × Bool :=
    if isNull (pyGet c1 "execution_count") then (c1, false)
    else (jset c1 "execution_count" .null, true)
  (r2.1, ch1 || r2.2)

/-- Lines 60-62: the cell id must be a non-empty string, else a fresh token
(`uuid.uuid4().hex[:8]`) is assigned.  `ids` is the stream of generated
tokens and `g` counts how many have been consumed. -/
def fixId (ids : Nat → String) (g : Nat) (c0 : JObj) : JObj × Bool × Nat :=
  if idOk (pyGet c0 "id") then (c0, false, g)
  else (jset c0 "id" (.str (ids g)), true, g + 1)

/-- Lines 58-146: one iteration of the `for c in cells` loop.  A non-dict
cell raises `AttributeError` (`c.get`), and a dict cell with no `metadata`
key raises `KeyError` at line 73; both are modelled as `none`. -/
def sanitizeCell (ids : Nat → String) (strip : Bool) (g : Nat) (c : J) : Option (J × Bool × Nat) :=
  match c with
  | .obj c0 =>
    let s1 := fixId ids g c0
    let s2 := coerceStrKey s1.1 "source"
    match fixCellMetadata s2.1 with
    | none => none
    | some s4 =>
      let s6 := fixAttachments s4.1
      let chHead := s1.2.1 || s2.2 || s4.2 || s6.2
      if pyEq (pyGet s6.1 "cell_type") (.str "code") then
        if strip then
          let r := stripOutputs s6.1
          some (.obj r.1, chHead || r.2, s1.2.2)
        else
          match fixOutputsNormalize s6.1 with
          | none => none
          | some r =>
            let r2 := fixExecCount r.1
            some (.obj r2.1, chHead || r.2 || r2.2, s1.2.2)
      else some (.obj s6.1, chHead, s1.2.2)
  | _ => none

/-- The `for c in cells` loop over the whole cell list. -/
def sanitizeCells (ids : Nat → String) (strip : Bool) : Nat → List J → Option (List J × Bool × Nat)
  | g, [] => some ([], false, g)
  | g, c :: cs =>
    match sanitizeCell ids strip g c with
    | none => none
    | some r =>
      match sanitizeCells ids strip r.2.2 cs with
      | none => none
      | some rs => some (r.1 :: rs.1, r.2.1 || rs.2.1, rs.2.2)

/-- Lines 52-56 guard: `cells` must be a list, else it is replaced by `[]`
(flagged). -/
def cellsBase (raw : JObj) : List J × Bool :=
  match pyGet raw "cells" with
  | .arr cs => (cs, false)
  | _ => ([], true)

/-- Lines 25-150: `sanitize_notebook` on an already-parsed document.  A
non-dict top level raises `AttributeError` at line 30 (`raw.get`), modelled
as `none`; file I/O (lines 26 and 148-149) is outside the document
transformation.  Returns the mutated document and the `changed` flag. -/
def sanitize_notebook (ids : Nat → String) (strip : Bool) (raw : J) : Option (J × Bool) :=
  match raw with
  | .obj raw0 =>
    let r1 := fixNbformat raw0
    let r2 := fixNbformatMinor r1.1
    let r3 := fixMetadata r2.1
    let r4 := cellsBase r3.1
    match sanitizeCells ids strip 0 r4.1 with
    | none => none
    | some r5 =>
        some (.obj (jset r3.1 "cells" (.arr r5.1)),
              r1.2 || r2.2 || r3.2 || r4.2 || r5.2.1)
  | _ => none

theorem jget_jset_self (m : JObj) (k : String) (v : J) : jget (jset m k v) k = some v := by
  induction m with
  | nil => simp [jset, jget]
  | cons kv rest ih =>
      obtain ⟨k1, v1⟩ := kv
      by_cases h : k1 = k
      · simp [jset, jget, h]
      · simp [jset, jget, h, ih]

theorem jget_jset_ne (m : JObj) {k k1 : String} (h : k ≠ k1) (v : J) :
    jget (jset m k v) k1 = jget m k1 := by
  induction m with
  | nil => simp [jset, jget, h]
  | cons kv rest ih =>
      obtain ⟨k2, v2⟩ := kv
      by_cases h2 : k2 = k
      · subst h2
        simp [jset, jget, h]
      · by_cases h3 : k2 = k1 <;> simp [jset, jget, h2, h3, ih, Ne.symm h]

theorem jset_eq_of_get {m : JObj} {k : String} {v : J} (h : jget m k = some v) :
    jset m k v = m := by
  induction m with
  | nil => simp [jget] at h
  | cons kv rest ih =>
      obtain ⟨k1, v1⟩ := kv
      by_cases h1 : k1 = k
      · subst h1
        simp [jget] at h
        simp [jset, h]
      · simp [jget, h1] at h
        simp [jset, h1, ih h]

theorem ne_of_jget_ne {m1 m : JObj} (k : String) (h : jget m1 k ≠ jget m k) : m1 ≠ m :=
  fun he => h (by rw [he])

theorem jget_of_pyGet {m : JObj} {k : String} {v : J} (h : pyGet m k = v) (hv : v ≠ .null) :
    jget m k = some v := by
  unfold pyGet at h
  cases hg : jget m k with
  | none => rw [hg] at h; simp [Option.getD] at h; exact absurd h.symm hv
  | some w => rw [hg] at h; simp [Option.getD] at h; rw [h]

theorem pyGet_jset_self (m : JObj) (k : String) (v : J) : pyGet (jset m k v) k = v := by
  simp [pyGet, jget_jset_self]

theorem pyGet_jset_ne (m : JObj) {k k1 : String} (h : k ≠ k1) (v : J) :
    pyGet (jset m k v) k1 = pyGet m k1 := by
  simp [pyGet, jget_jset_ne m h]

theorem pyEq_str_right (v : J) (s : String) : pyEq v (.str s) = true ↔ v = .str s := by
  cases v <;> simp [pyEq]

theorem pyEq_int4 (v : J) : pyEq v (.int 4) = true ↔ v = .int 4 := by
  cases v with
  | bool b => cases b <;> simp [pyEq]
  | _ => simp [pyEq]

theorem pyEqList_left_strs :
    ∀ (ts vs : List J), (∀ t ∈ ts, ∃ s, t = J.str s) →
      (pyEqList ts vs = true ↔ ts = vs)
  | [], [] => by simp [pyEqList]
  | [], v :: vs => by simp [pyEqList]
  | t :: ts, [] => by simp [pyEqList]
  | t :: ts, v :: vs => by
      intro h
      obtain ⟨s, hs⟩ := h t (by simp)
      subst hs
      have ih := pyEqList_left_strs ts vs (fun t ht => h t (by simp [ht]))
      have hstr : pyEq (J.str s) v = true ↔ v = J.str s := by
        cases v with
        | str t =>
            simp only [pyEq, beq_iff_eq, J.str.injEq]
            exact ⟨fun h => h.symm, fun h => h.symm⟩
        | _ => simp [pyEq]
      simp only [pyEqList, Bool.and_eq_true, ih, hstr, List.cons.injEq]
      constructor
      · rintro ⟨h1, h2⟩
        exact ⟨h1.symm, h2⟩
      · rintro ⟨h1, h2⟩
        exact ⟨h1.symm, h2⟩

theorem pyEq_arr_left_strs {ts : List J} (h : ∀ t ∈ ts, ∃ s, t = J.str s) (v : J) :
    pyEq (.arr ts) v = true ↔ v = .arr ts := by
  cases v with
  | arr vs =>
      simp only [pyEq, pyEqList_left_strs ts vs h, J.arr.injEq]
      exact ⟨fun h => h.symm, fun h => h.symm⟩
  | _ => simp [pyEq]

theorem list_map_eq_self {α : Type} {l : List α} {f : α → α} (h : ∀ x ∈ l, f x = x) :
    l.map f = l := by
  induction l with
  | nil => rfl
  | cons x xs ih => simp [h x (by simp), ih (fun y hy => h y (by simp [hy]))]

/-- The fixpoint condition of lines 38-43: `language_info` is a dict whose
`name` is a string. -/
def LINorm (md : JObj) : Prop :=
  ∃ li, jget md "language_info" = some (.obj li) ∧ liNameOk li = true

/-- The fixpoint condition of lines 44-50: `kernelspec` is a dict whose
`name` and `display_name` are present and non-null. -/
def KSNorm (md : JObj) : Prop :=
  ∃ ks, jget md "kernelspec" = some (.obj ks) ∧
    isNull (pyGet ks "name") = false ∧ isNull (pyGet ks "display_name") = false

/-- The fixpoint condition of lines 73-77: a `tags` list holds only strings. -/
def TagsNorm (m : JObj) : Prop :=
  ∀ ts, pyGet m "tags" = .arr ts → ∀ t ∈ ts, ∃ s, t = J.str s

/-- The fixpoint condition of lines 80-84: an `execution` dict holds only
string values. -/
def ExecNorm (m : JObj) : Prop :=
  ∀ em, pyGet m "execution" = .obj em → ∀ kv ∈ em, isStrJ kv.2 = true

/-- The key `k`, when present, holds a string. -/
def StrOrAbsent (o : JObj) (k : String) : Prop :=
  ∀ v, jget o k = some v → ∃ s, v = .str s

/-- The key `k`, when present, holds a dict. -/
def ObjOrAbsent (o : JObj) (k : String) : Prop :=
  ∀ v, jget o k = some v → ∃ w, v = .obj w

/-- Lines 126-128 / 144-146 fixpoint: `execution_count` reads as `None` or
is a Python int. -/
def EcNorm (o : JObj) : Prop :=
  isNull (pyGet o "execution_count") = true ∨ isPyInt (pyGet o "execution_count") = true

/-- Fixpoint condition for one output entry (lines 100-141, normalize mode). -/
def OutNorm (o : JObj) : Prop :=
  ObjOrAbsent o "metadata" ∧
  (pyGet o "output_type" = .str "stream" → StrOrAbsent o "text" ∧ StrOrAbsent o "name") ∧
  ((pyGet o "output_type" = .str "display_data" ∨ pyGet o "output_type" = .str "execute_result") →
      truthy (pyGet o "data") = true →
      ∃ dm, pyGet o "data" = .obj dm ∧ ∀ kv ∈ dm, dataEntryBad kv = false) ∧
  (pyGet o "output_type" = .str "execute_result" → EcNorm o) ∧
  (pyGet o "output_type" = .str "error" →
      (∀ tb, jget o "traceback" = some tb → ∃ ts, tb = .arr ts ∧ ∀ t ∈ ts, ∃ s, t = J.str s) ∧
      StrOrAbsent o "ename" ∧ StrOrAbsent o "evalue")

/-- Fixpoint condition for one cell (lines 58-146). -/
def CellNorm (strip : Bool) (c : JObj) : Prop :=
  idOk (pyGet c "id") = true ∧
  StrOrAbsent c "source" ∧
  (∃ m, jget c "metadata" = some (.obj m) ∧ TagsNorm m ∧ ExecNorm m) ∧
  ((pyGet c "cell_type" = .str "markdown" ∨ pyGet c "cell_type" = .str "raw") →
      ObjOrAbsent c "attachments") ∧
  (pyGet c "cell_type" = .str "code" →
      if strip then
        jget c "outputs" = some (.arr []) ∧ isNull (pyGet c "execution_count") = true
      else
        (truthy (pyGet c "outputs") = true →
          ∃ os, pyGet c "outputs" = .arr os ∧ ∀ o ∈ os, ∃ oo, o = .obj oo ∧ OutNorm oo) ∧
        EcNorm c)

/-- Fixpoint condition for a whole parsed document. -/
def DocNorm (strip : Bool) (raw : JObj) : Prop :=
  pyGet raw "nbformat" = .int 4 ∧
  isPyInt (pyGet raw "nbformat_minor") = true ∧
  (∃ md, pyGet raw "metadata" = .obj md ∧ LINorm md ∧ KSNorm md) ∧
  (∃ cs, pyGet raw "cells" = .arr cs ∧ ∀ c ∈ cs, ∃ co, c = .obj co ∧ CellNorm strip co)

theorem fixNbformat_spec (m : JObj) :
    (pyGet m "nbformat" = .int 4 ∧ fixNbformat m = (m, false)) ∨
    (pyGet m "nbformat" ≠ .int 4 ∧ fixNbformat m = (jset m "nbformat" (.int 4), true)) := by
  unfold fixNbformat
  by_cases hc : pyEq (pyGet m "nbformat") (.int 4) = true
  · exact .inl ⟨(pyEq_int4 _).mp hc, by simp [hc]⟩
  · exact .inr ⟨fun he => hc ((pyEq_int4 _).mpr he), by simp [hc]⟩

theorem fixNbformatMinor_spec (m : JObj) :
    (isPyInt (pyGet m "nbformat_minor") = true ∧ fixNbformatMinor m = (m, false)) ∨
    (isPyInt (pyGet m "nbformat_minor") = false ∧
      fixNbformatMinor m = (jset m "nbformat_minor" (.int 5), true)) := by
  unfold fixNbformatMinor
  by_cases hc : isPyInt (pyGet m "nbformat_minor") = true
  · exact .inl ⟨hc, by simp [hc]⟩
  · exact .inr ⟨by simpa using hc, by simp [hc]⟩

theorem pyGet_eq_of_jget {m : JObj} {k : String} {w : J} (h : jget m k = some w) :
    pyGet m k = w := by
  simp [pyGet, h]

theorem fixLanguageInfo_spec (md : JObj) :
    (LINorm md ∧ fixLanguageInfo md = (md, false)) ∨
    (∃ li1, fixLanguageInfo md = (jset md "language_info" (.obj li1), true) ∧
       liNameOk li1 = true ∧ some (J.obj li1) ≠ jget md "language_info") := by
  unfold fixLanguageInfo
  split
  case h_1 li heq =>
    by_cases hn : liNameOk li = true
    · exact .inl ⟨⟨li, jget_of_pyGet heq (by simp), hn⟩, by simp [hn]⟩
    · refine .inr ⟨jset li "name" (.str "python"), by simp [hn], ?_, ?_⟩
      · unfold liNameOk
        simp [jget_jset_self]
      · rw [jget_of_pyGet heq (by simp)]
        intro hcon
        injection hcon with hcon
        injection hcon with hcon
        have h2 : jget (jset li "name" (J.str "python")) "name" = jget li "name" := by rw [hcon]
        rw [jget_jset_self] at h2
        unfold liNameOk at hn
        rw [← h2] at hn
        simp at hn
  case h_2 hne =>
    refine .inr ⟨[("name", .str "python")], rfl, by unfold liNameOk; simp [jget], ?_⟩
    cases hj : jget md "language_info" with
    | none => simp
    | some w =>
        intro hcon
        injection hcon with hcon
        exact hne _ ((pyGet_eq_of_jget hj).trans hcon.symm)

theorem map_eq_self_mem {α : Type} {l : List α} {f : α → α} (h : l.map f = l) :
    ∀ x ∈ l, f x = x := by
  induction l with
  | nil => simp
  | cons a as ih =>
      simp only [List.map_cons, List.cons.injEq] at h
      intro x hx
      rcases List.mem_cons.mp hx with rfl | hx2
      · exact h.1
      · exact ih h.2 x hx2

theorem newTags_strs (ts : List J) :
    ∀ x ∈ (ts.filter fun t => !isNull t).map (fun t => J.str (to_s t)), ∃ s, x = J.str s := by
  intro x hx
  simp only [List.mem_map] at hx
  obtain ⟨t, _, rfl⟩ := hx
  exact ⟨_, rfl⟩

theorem tags_clean {ts : List J} (h : ∀ t ∈ ts, ∃ s, t = J.str s) :
    ((ts.filter fun t => !isNull t).map fun t => J.str (to_s t)) = ts := by
  induction ts with
  | nil => rfl
  | cons t ts ih =>
      obtain ⟨s, rfl⟩ := h t (by simp)
      have hts := ih (fun t ht => h t (by simp [ht]))
      simp only [List.filter_cons]
      rw [if_pos (show (!isNull (J.str s)) = true from rfl), List.map_cons, hts]
      rfl

theorem metaBase_spec (raw : JObj) :
    (∃ md, pyGet raw "metadata" = .obj md ∧ metaBase raw = (md, false)) ∨
    ((∀ md, pyGet raw "metadata" ≠ .obj md) ∧ metaBase raw = ([], true)) := by
  unfold metaBase
  split
  case h_1 m heq => exact .inl ⟨m, heq, rfl⟩
  case h_2 hne => exact .inr ⟨fun md h => hne md h, rfl⟩

theorem cellsBase_spec (raw : JObj) :
    (∃ cs, pyGet raw "cells" = .arr cs ∧ cellsBase raw = (cs, false)) ∨
    ((∀ cs, pyGet raw "cells" ≠ .arr cs) ∧ cellsBase raw = ([], true)) := by
  unfold cellsBase
  split
  case h_1 cs heq => exact .inl ⟨cs, heq, rfl⟩
  case h_2 hne => exact .inr ⟨fun cs h => hne cs h, rfl⟩

theorem fixKernelspec_spec (md : JObj) :
    (KSNorm md ∧ fixKernelspec md = (md, false)) ∨
    (∃ ks1, fixKernelspec md = (jset md "kernelspec" (.obj ks1), true) ∧
       isNull (pyGet ks1 "name") = false ∧ isNull (pyGet ks1 "display_name") = false ∧
       some (J.obj ks1) ≠ jget md "kernelspec") := by
  unfold fixKernelspec
  split
  case h_1 ks heq =>
    have hj : jget md "kernelspec" = some (.obj ks) := jget_of_pyGet heq (by simp)
    by_cases h1 : isNull (pyGet ks "name") = true
    · by_cases h2 : isNull (pyGet (jset ks "name" (.str "python3")) "display_name") = true
      · refine .inr ⟨jset (jset ks "name" (.str "python3")) "display_name" (.str "Python 3"),
          by simp [h1, h2], ?_, ?_, ?_⟩
        · rw [pyGet_jset_ne _ (by decide), pyGet_jset_self]
          rfl
        · rw [pyGet_jset_self]
          rfl
        · rw [hj]
          intro hcon
          injection hcon with hcon
          injection hcon with hcon
          have hx : pyGet (jset (jset ks "name" (.str "python3")) "display_name" (.str "Python 3"))
              "name" = .str "python3" := by
            rw [pyGet_jset_ne _ (by decide), pyGet_jset_self]
          rw [hcon] at hx
          rw [hx] at h1
          simp [isNull] at h1
      · refine .inr ⟨jset ks "name" (.str "python3"), by simp [h1, h2], ?_, ?_, ?_⟩
        · rw [pyGet_jset_self]
          rfl
        · simpa using h2
        · rw [hj]
          intro hcon
          injection hcon with hcon
          injection hcon with hcon
          have hx : pyGet (jset ks "name" (.str "python3")) "name" = .str "python3" :=
            pyGet_jset_self _ _ _
          rw [hcon] at hx
          rw [hx] at h1
          simp [isNull] at h1
    · have h1f : isNull (pyGet ks "name") = false := by simpa using h1
      by_cases h2 : isNull (pyGet ks "display_name") = true
      · refine .inr ⟨jset ks "display_name" (.str "Python 3"), by simp [h1, h2], ?_, ?_, ?_⟩
        · rw [pyGet_jset_ne _ (by decide)]
          exact h1f
        · rw [pyGet_jset_self]
          rfl
        · rw [hj]
          intro hcon
          injection hcon with hcon
          injection hcon with hcon
          have hx : pyGet (jset ks "display_name" (.str "Python 3")) "display_name"
              = .str "Python 3" := pyGet_jset_self _ _ _
          rw [hcon] at hx
          rw [hx] at h2
          simp [isNull] at h2
      · exact .inl ⟨⟨ks, hj, h1f, by simpa using h2⟩, by simp [h1, h2, jset_eq_of_get hj]⟩
  case h_2 hne =>
    refine .inr ⟨[("name", .str "python3"), ("display_name", .str "Python 3")], rfl,
      by decide, by decide, ?_⟩
    cases hjj : jget md "kernelspec" with
    | none => simp
    | some w =>
        intro hcon
        injection hcon with hcon
        exact hne _ ((pyGet_eq_of_jget hjj).trans hcon.symm)

theorem coerceStrKey_spec (c : JObj) (k : String) :
    (StrOrAbsent c k ∧ coerceStrKey c k = (c, false)) ∨
    (∃ v, jget c k = some v ∧ isStrJ v = false ∧
       coerceStrKey c k = (jset c k (.str (to_s v)), true)) := by
  cases hj : jget c k with
  | none =>
      refine .inl ⟨fun v hv => ?_, by unfold coerceStrKey; rw [hj]⟩
      rw [hj] at hv
      exact Option.noConfusion hv
  | some v =>
      cases v
      case str s =>
        refine .inl ⟨fun w hw => ?_, by unfold coerceStrKey; rw [hj]⟩
        rw [hj] at hw
        injection hw with h
        exact ⟨s, h.symm⟩
      all_goals exact .inr ⟨_, rfl, rfl, by unfold coerceStrKey; rw [hj]⟩

theorem coerceObjKey_spec (c : JObj) (k : String) :
    (ObjOrAbsent c k ∧ coerceObjKey c k = (c, false)) ∨
    (∃ v, jget c k = some v ∧ isObjJ v = false ∧
       coerceObjKey c k = (jset c k (.obj []), true)) := by
  cases hj : jget c k with
  | none =>
      refine .inl ⟨fun v hv => ?_, by unfold coerceObjKey; rw [hj]⟩
      rw [hj] at hv
      exact Option.noConfusion hv
  | some v =>
      cases v
      case obj o =>
        refine .inl ⟨fun w hw => ?_, by unfold coerceObjKey; rw [hj]⟩
        rw [hj] at hw
        injection hw with h
        exact ⟨o, h.symm⟩
      all_goals exact .inr ⟨_, rfl, rfl, by unfold coerceObjKey; rw [hj]⟩

theorem fixTags_spec (m : JObj) :
    (fixTags m = (m, false) ∧ TagsNorm m) ∨
    (∃ ts, pyGet m "tags" = .arr ts ∧
       (J.arr ((ts.filter fun t => !isNull t).map fun t => J.str (to_s t))) ≠ .arr ts ∧
       fixTags m = (jset m "tags"
         (.arr ((ts.filter fun t => !isNull t).map fun t => J.str (to_s t))), true)) := by
  unfold fixTags
  split
  case h_1 ts heq =>
    by_cases hc : pyEq (.arr ((ts.filter fun t => !isNull t).map fun t => J.str (to_s t)))
        (.arr ts) = true
    · have heqs := (pyEq_arr_left_strs (newTags_strs ts) _).mp hc
      injection heqs with heqs
      refine .inl ⟨by simp [hc], ?_⟩
      intro ts1 h1 t ht
      rw [heq] at h1
      injection h1 with h1
      subst h1
      exact newTags_strs ts t (heqs ▸ ht)
    · refine .inr ⟨ts, heq, ?_, by simp [hc]⟩
      intro hcon
      exact hc ((pyEq_arr_left_strs (newTags_strs ts) _).mpr hcon.symm)
  case h_2 hne =>
    refine .inl ⟨rfl, ?_⟩
    intro ts1 h1
    exact absurd h1 (hne ts1)

theorem fixExecution_spec (m : JObj) :
    (fixExecution m = (m, false) ∧ ExecNorm m) ∨
    ((fixExecution m).2 = true ∧
      jget (fixExecution m).1 "execution" ≠ jget m "execution" ∧
      (∀ k1, k1 ≠ "execution" → jget (fixExecution m).1 k1 = jget m k1) ∧
      ExecNorm (fixExecution m).1) := by
  unfold fixExecution
  split
  case h_1 em heq =>
    have hj : jget m "execution" = some (.obj em) := jget_of_pyGet heq (by simp)
    by_cases hch : (em.any fun kv => !isStrJ kv.2) = true
    · obtain ⟨kv, hkv, hbad⟩ := List.any_eq_true.mp hch
      refine .inr ⟨by simp [hch], ?_, fun k1 hk1 => by simp [jget_jset_ne _ (Ne.symm hk1)], ?_⟩
      · rw [jget_jset_self, hj]
        intro hcon
        injection hcon with h1
        injection h1 with h2
        have hpt := map_eq_self_mem h2 kv hkv
        by_cases hs : isStrJ kv.2 = true
        · simp [hs] at hbad
        · rw [if_neg hs] at hpt
          obtain ⟨k0, v0⟩ := kv
          injection hpt with h1 h2
          rw [← h2] at hs
          simp [isStrJ] at hs
      · intro em1 h1
        rw [pyGet_jset_self] at h1
        injection h1 with h1
        subst h1
        intro kv hkv1
        simp only [List.mem_map] at hkv1
        obtain ⟨kv0, _, rfl⟩ := hkv1
        by_cases hs : isStrJ kv0.2 = true
        · rw [if_pos hs]
          exact hs
        · rw [if_neg hs]
          rfl
    · have hall : ∀ kv ∈ em, isStrJ kv.2 = true := by
        intro kv hkv
        by_contra hnot
        exact hch (List.any_eq_true.mpr ⟨kv, hkv, by simp [hnot]⟩)
      have hmap : (em.map fun kv => if isStrJ kv.2 then kv else (kv.1, J.str (to_s kv.2))) = em :=
        list_map_eq_self (fun kv hkv => by simp [hall kv hkv])
      have hchf : (em.any fun kv => !isStrJ kv.2) = false := by simpa using hch
      refine .inl ⟨?_, ?_⟩
      · simp only [hmap, hchf]
        rw [jset_eq_of_get hj]
      · intro em1 h1 kv hkv
        rw [heq] at h1
        injection h1 with h1
        subst h1
        exact hall kv hkv
  case h_2 hne =>
    refine .inl ⟨rfl, ?_⟩
    intro em1 h1
    exact absurd h1 (hne em1)

theorem fixExecCount_spec (c : JObj) :
    (fixExecCount c = (c, false) ∧ EcNorm c) ∨
    (fixExecCount c = (jset c "execution_count" .null, true) ∧
      jget (jset c "execution_count" .null) "execution_count" ≠ jget c "execution_count") := by
  unfold fixExecCount
  by_cases hc : (isNull (pyGet c "execution_count") || isPyInt (pyGet c "execution_count")) = true
  · exact .inl ⟨by simp [hc], by unfold EcNorm; simpa using hc⟩
  · simp only [Bool.or_eq_true, not_or, Bool.not_eq_true] at hc
    refine .inr ⟨by simp [hc.1, hc.2], ?_⟩
    rw [jget_jset_self]
    cases hj : jget c "execution_count" with
    | none => simp
    | some w =>
        intro hcon
        injection hcon with hcon
        have := pyGet_eq_of_jget hj
        rw [← hcon] at this
        rw [this] at hc
        simp [isNull] at hc

theorem fixId_spec (ids : Nat → String) (g : Nat) (c0 : JObj) :
    (idOk (pyGet c0 "id") = true ∧ fixId ids g c0 = (c0, false, g)) ∨
    (idOk (pyGet c0 "id") = false ∧
      fixId ids g c0 = (jset c0 "id" (.str (ids g)), true, g + 1)) := by
  unfold fixId
  by_cases hc : idOk (pyGet c0 "id") = true
  · exact .inl ⟨hc, by simp [hc]⟩
  · exact .inr ⟨by simpa using hc, by simp [hc]⟩

theorem fixNbformat_fix {raw : JObj} (h : pyGet raw "nbformat" = .int 4) :
    fixNbformat raw = (raw, false) := by
  unfold fixNbformat
  simp [(pyEq_int4 _).mpr h]

theorem fixNbformatMinor_fix {raw : JObj} (h : isPyInt (pyGet raw "nbformat_minor") = true) :
    fixNbformatMinor raw = (raw, false) := by
  unfold fixNbformatMinor
  simp [h]

theorem fixLanguageInfo_fix {md : JObj} (h : LINorm md) : fixLanguageInfo md = (md, false) := by
  obtain ⟨li, h1, h2⟩ := h
  unfold fixLanguageInfo
  rw [pyGet_eq_of_jget h1]
  simp [h2]

theorem fixKernelspec_fix {md : JObj} (h : KSNorm md) : fixKernelspec md = (md, false) := by
  obtain ⟨ks, h1, h2, h3⟩ := h
  unfold fixKernelspec
  rw [pyGet_eq_of_jget h1]
  simp [h2, h3, jset_eq_of_get h1]

theorem metaBase_fix {raw : JObj} {md : JObj} (h : pyGet raw "metadata" = .obj md) :
    metaBase raw = (md, false) := by
  unfold metaBase
  rw [h]

theorem cellsBase_fix {raw : JObj} {cs : List J} (h : pyGet raw "cells" = .arr cs) :
    cellsBase raw = (cs, false) := by
  unfold cellsBase
  rw [h]

theorem coerceStrKey_fix {c : JObj} {k : String} (h : StrOrAbsent c k) :
    coerceStrKey c k = (c, false) := by
  rcases coerceStrKey_spec c k with ⟨_, he⟩ | ⟨v, hj, hs, _⟩
  · exact he
  · obtain ⟨s, rfl⟩ := h v hj
    simp [isStrJ] at hs

theorem coerceObjKey_fix {c : JObj} {k : String} (h : ObjOrAbsent c k) :
    coerceObjKey c k = (c, false) := by
  rcases coerceObjKey_spec c k with ⟨_, he⟩ | ⟨v, hj, hs, _⟩
  · exact he
  · obtain ⟨w, rfl⟩ := h v hj
    simp [isObjJ] at hs

theorem fixTags_fix {m : JObj} (h : TagsNorm m) : fixTags m = (m, false) := by
  unfold fixTags
  split
  case h_1 ts heq =>
    have hclean := tags_clean (h ts heq)
    rw [hclean]
    simp [(pyEq_arr_left_strs (h ts heq) _).mpr rfl]
  case h_2 hne => rfl

theorem fixExecution_fix {m : JObj} (h : ExecNorm m) : fixExecution m = (m, false) := by
  unfold fixExecution
  split
  case h_1 em heq =>
    have hall := h em heq
    have hmap : (em.map fun kv => if isStrJ kv.2 then kv else (kv.1, J.str (to_s kv.2))) = em :=
      list_map_eq_self (fun kv hkv => by simp [hall kv hkv])
    have hch : (em.any fun kv => !isStrJ kv.2) = false := by
      rw [List.any_eq_false]
      intro kv hkv
      simp [hall kv hkv]
    simp only [hmap, hch]
    rw [jset_eq_of_get (jget_of_pyGet heq (by simp))]
  case h_2 hne => rfl

theorem fixExecCount_fix {c : JObj} (h : EcNorm c) : fixExecCount c = (c, false) := by
  unfold fixExecCount
  rcases h with h | h <;> simp [h]

theorem fixId_fix {ids : Nat → String} {g : Nat} {c0 : JObj} (h : idOk (pyGet c0 "id") = true) :
    fixId ids g c0 = (c0, false, g) := by
  unfold fixId
  simp [h]

theorem LINorm_jset {md : JObj} (h : LINorm md) {k : String} (hk : k ≠ "language_info") (v : J) :
    LINorm (jset md k v) := by
  obtain ⟨li, h1, h2⟩ := h
  exact ⟨li, by rw [jget_jset_ne _ hk]; exact h1, h2⟩

theorem fixMetadata_def (raw : JObj) :
    fixMetadata raw =
      (jset raw "metadata" (.obj (fixKernelspec (fixLanguageInfo (metaBase raw).1).1).1),
       (metaBase raw).2 || (fixLanguageInfo (metaBase raw).1).2
         || (fixKernelspec (fixLanguageInfo (metaBase raw).1).1).2) := rfl

theorem fixMetadata_frame (raw : JObj) {k : String} (h : k ≠ "metadata") :
    jget (fixMetadata raw).1 k = jget raw k := by
  rw [fixMetadata_def]
  exact jget_jset_ne _ (Ne.symm h) _

theorem fixMetadata_after (raw : JObj) :
    ∃ md, pyGet (fixMetadata raw).1 "metadata" = .obj md ∧ LINorm md ∧ KSNorm md := by
  refine ⟨(fixKernelspec (fixLanguageInfo (metaBase raw).1).1).1,
    by rw [fixMetadata_def]; exact pyGet_jset_self _ _ _, ?_, ?_⟩
  · have hli : LINorm (fixLanguageInfo (metaBase raw).1).1 := by
      rcases fixLanguageInfo_spec (metaBase raw).1 with ⟨h1, h2⟩ | ⟨li1, h2, h3, h4⟩
      · rw [h2]
        exact h1
      · rw [h2]
        exact ⟨li1, jget_jset_self _ _ _, h3⟩
    rcases fixKernelspec_spec (fixLanguageInfo (metaBase raw).1).1 with ⟨h1, h2⟩ | ⟨ks1, h2, h3, h4, h5⟩
    · rw [h2]
      exact hli
    · rw [h2]
      exact LINorm_jset hli (by decide) _
  · rcases fixKernelspec_spec (fixLanguageInfo (metaBase raw).1).1 with ⟨h1, h2⟩ | ⟨ks1, h2, h3, h4, h5⟩
    · rw [h2]
      exact h1
    · rw [h2]
      exact ⟨ks1, jget_jset_self _ _ _, h3, h4⟩

theorem fixMetadata_false {raw : JObj} (h : (fixMetadata raw).2 = false) :
    (fixMetadata raw).1 = raw := by
  rw [fixMetadata_def] at h ⊢
  simp only [Bool.or_eq_false_iff] at h
  obtain ⟨⟨hm0, hm1⟩, hm2⟩ := h
  rcases metaBase_spec raw with ⟨md0, hpg, he⟩ | ⟨_, he⟩
  · rw [he] at hm1 hm2 ⊢
    rcases fixLanguageInfo_spec md0 with ⟨h1, h2⟩ | ⟨li1, h2, _, _⟩
    · rw [h2] at hm2 ⊢
      rcases fixKernelspec_spec md0 with ⟨h3, h4⟩ | ⟨ks1, h4, _, _, _⟩
      · rw [h4]
        exact jset_eq_of_get (jget_of_pyGet hpg (by simp))
      · rw [h4] at hm2
        simp at hm2
    · rw [h2] at hm1
      simp at hm1
  · rw [he] at hm0
    simp at hm0

theorem fixMetadata_true {raw : JObj} (h : (fixMetadata raw).2 = true) :
    jget (fixMetadata raw).1 "metadata" ≠ jget raw "metadata" := by
  rw [fixMetadata_def] at h ⊢
  rw [jget_jset_self]
  rcases metaBase_spec raw with ⟨md0, hpg, he⟩ | ⟨hne, he⟩
  · rw [he] at h ⊢
    have hjr : jget raw "metadata" = some (.obj md0) := jget_of_pyGet hpg (by simp)
    rw [hjr]
    rcases fixLanguageInfo_spec md0 with ⟨h1, h2⟩ | ⟨li1, h2, h3, h4⟩
    · rw [h2] at h ⊢
      rcases fixKernelspec_spec md0 with ⟨h5, h6⟩ | ⟨ks1, h6, h7, h8, h9⟩
      · rw [h6] at h
        simp at h
      · rw [h6]
        intro hcon
        injection hcon with hcon
        injection hcon with hcon
        apply h9
        rw [← hcon]
        exact (jget_jset_self _ _ _).symm
    · rw [h2] at h ⊢
      intro hcon
      injection hcon with hcon
      injection hcon with hcon
      have hli1 : jget (fixKernelspec (jset md0 "language_info" (.obj li1))).1 "language_info"
          = some (.obj li1) := by
        rcases fixKernelspec_spec (jset md0 "language_info" (.obj li1)) with
          ⟨_, h6⟩ | ⟨ks1, h6, _, _, _⟩
        · rw [h6]
          exact jget_jset_self _ _ _
        · rw [h6]
          rw [jget_jset_ne _ (by decide)]
          exact jget_jset_self _ _ _
      rw [hcon] at hli1
      exact h4 hli1.symm
  · rw [he] at h ⊢
    cases hjr : jget raw "metadata" with
    | none => simp
    | some w =>
        intro hcon
        injection hcon with hcon
        exact hne _ ((pyGet_eq_of_jget hjr).trans hcon.symm)

theorem fixMetadata_fix {raw : JObj} {md : JObj} (hpg : pyGet raw "metadata" = .obj md)
    (hli : LINorm md) (hks : KSNorm md) : fixMetadata raw = (raw, false) := by
  rw [fixMetadata_def, metaBase_fix hpg]
  dsimp only
  rw [fixLanguageInfo_fix hli]
  dsimp only
  rw [fixKernelspec_fix hks]
  dsimp only
  rw [jset_eq_of_get (jget_of_pyGet hpg (by simp))]
  rfl

theorem coerceStrKey_false {c : JObj} {k : String} (h : (coerceStrKey c k).2 = false) :
    (coerceStrKey c k).1 = c := by
  rcases coerceStrKey_spec c k with ⟨_, he⟩ | ⟨v, hj, hs, he⟩
  · rw [he]
  · rw [he] at h
    simp at h

theorem coerceStrKey_frame (c : JObj) (k : String) {k1 : String} (h : k1 ≠ k) :
    jget (coerceStrKey c k).1 k1 = jget c k1 := by
  rcases coerceStrKey_spec c k with ⟨_, he⟩ | ⟨v, hj, hs, he⟩
  · rw [he]
  · rw [he]
    exact jget_jset_ne _ (Ne.symm h) _

theorem coerceStrKey_ne {c : JObj} {k : String} (h : (coerceStrKey c k).2 = true) :
    jget (coerceStrKey c k).1 k ≠ jget c k := by
  rcases coerceStrKey_spec c k with ⟨_, he⟩ | ⟨v, hj, hs, he⟩
  · rw [he] at h
    simp at h
  · rw [he, jget_jset_self, hj]
    intro hcon
    injection hcon with h1
    rw [← h1] at hs
    simp [isStrJ] at hs

theorem coerceStrKey_after (c : JObj) (k : String) : StrOrAbsent (coerceStrKey c k).1 k := by
  rcases coerceStrKey_spec c k with ⟨hs, he⟩ | ⟨v, hj, hs, he⟩
  · rw [he]
    exact hs
  · rw [he]
    intro w hw
    rw [jget_jset_self] at hw
    injection hw with h1
    exact ⟨_, h1.symm⟩

theorem coerceObjKey_false {c : JObj} {k : String} (h : (coerceObjKey c k).2 = false) :
    (coerceObjKey c k).1 = c := by
  rcases coerceObjKey_spec c k with ⟨_, he⟩ | ⟨v, hj, hs, he⟩
  · rw [he]
  · rw [he] at h
    simp at h

theorem coerceObjKey_frame (c : JObj) (k : String) {k1 : String} (h : k1 ≠ k) :
    jget (coerceObjKey c k).1 k1 = jget c k1 := by
  rcases coerceObjKey_spec c k with ⟨_, he⟩ | ⟨v, hj, hs, he⟩
  · rw [he]
  · rw [he]
    exact jget_jset_ne _ (Ne.symm h) _

theorem coerceObjKey_ne {c : JObj} {k : String} (h : (coerceObjKey c k).2 = true) :
    jget (coerceObjKey c k).1 k ≠ jget c k := by
  rcases coerceObjKey_spec c k with ⟨_, he⟩ | ⟨v, hj, hs, he⟩
  · rw [he] at h
    simp at h
  · rw [he, jget_jset_self, hj]
    intro hcon
    injection hcon with h1
    rw [← h1] at hs
    simp [isObjJ] at hs

theorem coerceObjKey_after (c : JObj) (k : String) : ObjOrAbsent (coerceObjKey c k).1 k := by
  rcases coerceObjKey_spec c k with ⟨hs, he⟩ | ⟨v, hj, hs, he⟩
  · rw [he]
    exact hs
  · rw [he]
    intro w hw
    rw [jget_jset_self] at hw
    injection hw with h1
    exact ⟨_, h1.symm⟩

theorem fixDataEntry_key (kv : String × J) : (fixDataEntry kv).1 = kv.1 := by
  obtain ⟨k, v⟩ := kv
  unfold fixDataEntry
  by_cases ht : textualKey k = true <;> cases v <;> simp [ht]

theorem fixDataEntry_good (kv : String × J) : dataEntryBad (fixDataEntry kv) = false := by
  obtain ⟨k, v⟩ := kv
  unfold fixDataEntry dataEntryBad
  by_cases ht : textualKey k = true <;> cases v <;> simp [ht, isStrJ, isObjJ, isArrJ]

theorem fixDataEntry_of_good {kv : String × J} (h : dataEntryBad kv = false) :
    fixDataEntry kv = kv := by
  obtain ⟨k, v⟩ := kv
  unfold dataEntryBad at h
  unfold fixDataEntry
  by_cases ht : textualKey k = true <;> cases v <;> simp [ht, isStrJ, isObjJ, isArrJ] at h ⊢

theorem fixDataEntry_of_bad {kv : String × J} (h : dataEntryBad kv = true) :
    fixDataEntry kv ≠ kv := by
  obtain ⟨k, v⟩ := kv
  unfold dataEntryBad at h
  unfold fixDataEntry
  by_cases ht : textualKey k = true <;> cases v <;>
    simp [ht, isStrJ, isObjJ, isArrJ] at h ⊢

theorem fixOutData_false {o : JObj} (h : (fixOutData o).2 = false) : (fixOutData o).1 = o := by
  unfold fixOutData at h ⊢
  by_cases hc : truthy (pyGet o "data") = true
  · rw [if_pos hc] at h ⊢
    split at h
    next dm heq =>
      simp only at h
      show (jset o "data" (J.obj (dm.map fixDataEntry))) = o
      have hmap : dm.map fixDataEntry = dm :=
        list_map_eq_self (fun kv hkv => fixDataEntry_of_good (by
          cases hb : dataEntryBad kv with
          | false => rfl
          | true => exact absurd (List.any_eq_true.mpr ⟨kv, hkv, hb⟩) (by simp [h])))
      rw [hmap]
      exact jset_eq_of_get (jget_of_pyGet heq (by simp))
    next x hne => simp at h
  · rw [if_neg hc]

theorem fixOutData_frame (o : JObj) {k : String} (h : k ≠ "data") :
    jget (fixOutData o).1 k = jget o k := by
  unfold fixOutData
  by_cases hc : truthy (pyGet o "data") = true
  · rw [if_pos hc]
    split
    · exact jget_jset_ne _ (Ne.symm h) _
    · exact jget_jset_ne _ (Ne.symm h) _
  · rw [if_neg hc]

theorem fixOutData_ne {o : JObj} (h : (fixOutData o).2 = true) :
    jget (fixOutData o).1 "data" ≠ jget o "data" := by
  unfold fixOutData at h ⊢
  by_cases hc : truthy (pyGet o "data") = true
  · rw [if_pos hc] at h ⊢
    split at h
    next dm heq =>
      simp only at h
      show jget (jset o "data" (J.obj (dm.map fixDataEntry))) "data" ≠ jget o "data"
      rw [jget_jset_self, jget_of_pyGet heq (by simp)]
      intro hcon
      injection hcon with hcon
      injection hcon with hcon
      obtain ⟨kv, hkv, hb⟩ := List.any_eq_true.mp h
      exact fixDataEntry_of_bad hb (map_eq_self_mem hcon kv hkv)
    next x hne =>
      have hd : pyGet o "data" ≠ .null := by
        intro hx
        rw [hx] at hc
        simp [truthy] at hc
      show jget (jset o "data" (J.obj [])) "data" ≠ jget o "data"
      rw [jget_jset_self, jget_of_pyGet rfl hd]
      intro hcon
      injection hcon with hcon
      exact hne [] hcon.symm
  · rw [if_neg hc] at h
    simp at h

theorem fixOutData_after (o : JObj) :
    truthy (pyGet (fixOutData o).1 "data") = true →
      ∃ dm, pyGet (fixOutData o).1 "data" = .obj dm ∧ ∀ kv ∈ dm, dataEntryBad kv = false := by
  unfold fixOutData
  by_cases hc : truthy (pyGet o "data") = true
  · rw [if_pos hc]
    split
    next dm heq =>
      intro _
      refine ⟨dm.map fixDataEntry, pyGet_jset_self _ _ _, ?_⟩
      intro kv hkv
      simp only [List.mem_map] at hkv
      obtain ⟨kv0, _, rfl⟩ := hkv
      exact fixDataEntry_good kv0
    next x hne =>
      intro hcon
      rw [pyGet_jset_self] at hcon
      simp [truthy] at hcon
  · rw [if_neg hc]
    intro hcon
    exact absurd hcon hc

theorem fixOutData_fix {o : JObj}
    (h : truthy (pyGet o "data") = true →
      ∃ dm, pyGet o "data" = .obj dm ∧ ∀ kv ∈ dm, dataEntryBad kv = false) :
    fixOutData o = (o, false) := by
  unfold fixOutData
  by_cases hc : truthy (pyGet o "data") = true
  · obtain ⟨dm, hpg, hgood⟩ := h hc
    rw [if_pos hc]
    split
    next dm1 heq1 =>
      rw [hpg] at heq1
      injection heq1 with heq1
      subst heq1
      have hmap : dm.map fixDataEntry = dm :=
        list_map_eq_self (fun kv hkv => fixDataEntry_of_good (hgood kv hkv))
      have hany : dm.any dataEntryBad = false := by
        rw [List.any_eq_false]
        intro kv hkv
        simp [hgood kv hkv]
      rw [hmap, hany, jset_eq_of_get (jget_of_pyGet hpg (by simp))]
    next x hne1 => exact absurd hpg (hne1 dm)
  · rw [if_neg hc]

theorem fixExecCount_false {c : JObj} (h : (fixExecCount c).2 = false) :
    (fixExecCount c).1 = c := by
  rcases fixExecCount_spec c with ⟨he, _⟩ | ⟨he, _⟩
  · rw [he]
  · rw [he] at h
    simp at h

theorem fixExecCount_frame (c : JObj) {k : String} (h : k ≠ "execution_count") :
    jget (fixExecCount c).1 k = jget c k := by
  rcases fixExecCount_spec c with ⟨he, _⟩ | ⟨he, _⟩
  · rw [he]
  · rw [he]
    exact jget_jset_ne _ (Ne.symm h) _

theorem fixExecCount_ne {c : JObj} (h : (fixExecCount c).2 = true) :
    jget (fixExecCount c).1 "execution_count" ≠ jget c "execution_count" := by
  rcases fixExecCount_spec c with ⟨he, _⟩ | ⟨he, hne⟩
  · rw [he] at h
    simp at h
  · rw [he]
    exact hne

theorem fixExecCount_after (c : JObj) : EcNorm (fixExecCount c).1 := by
  rcases fixExecCount_spec c with ⟨he, hn⟩ | ⟨he, _⟩
  · rw [he]
    exact hn
  · rw [he]
    left
    rw [pyGet_jset_self]
    rfl

theorem newTb_strs (tb : J) : ∀ x ∈ newTbOf tb, ∃ s, x = J.str s := by
  unfold newTbOf
  cases tb <;> intro x hx <;> simp_all [List.mem_map]
  case arr ts =>
    obtain ⟨t, _, rfl⟩ := hx
    exact ⟨_, rfl⟩

theorem fixTraceback_false {o : JObj} (h : (fixTraceback o).2 = false) :
    (fixTraceback o).1 = o := by
  unfold fixTraceback at h ⊢
  split at h
  next tb heq =>
    by_cases hp : pyEq (.arr (newTbOf tb)) tb = true
    · rw [if_pos hp]
    · rw [if_neg hp] at h
      simp at h
  next heq => rfl

theorem fixTraceback_frame (o : JObj) {k : String} (h : k ≠ "traceback") :
    jget (fixTraceback o).1 k = jget o k := by
  unfold fixTraceback
  split
  next tb heq =>
    split
    · rfl
    · exact jget_jset_ne _ (Ne.symm h) _
  next heq => rfl

theorem fixTraceback_ne {o : JObj} (h : (fixTraceback o).2 = true) :
    jget (fixTraceback o).1 "traceback" ≠ jget o "traceback" := by
  unfold fixTraceback at h ⊢
  split at h
  next tb heq =>
    by_cases hp : pyEq (.arr (newTbOf tb)) tb = true
    · rw [if_pos hp] at h
      simp at h
    · rw [if_neg hp]
      rw [jget_jset_self, heq]
      intro hcon
      injection hcon with hcon
      exact hp ((pyEq_arr_left_strs (newTb_strs tb) _).mpr hcon.symm)
  next heq => simp at h

theorem fixTraceback_after (o : JObj) :
    ∀ tb, jget (fixTraceback o).1 "traceback" = some tb →
      ∃ ts, tb = .arr ts ∧ ∀ t ∈ ts, ∃ s, t = J.str s := by
  unfold fixTraceback
  split
  next tb0 heq =>
    by_cases hp : pyEq (.arr (newTbOf tb0)) tb0 = true
    · rw [if_pos hp]
      intro tb htb
      rw [heq] at htb
      injection htb with htb
      subst htb
      have h2 := (pyEq_arr_left_strs (newTb_strs tb0) _).mp hp
      exact ⟨_, h2, newTb_strs tb0⟩
    · rw [if_neg hp]
      intro tb htb
      rw [jget_jset_self] at htb
      injection htb with htb
      subst htb
      exact ⟨_, rfl, newTb_strs tb0⟩
  next heq =>
    intro tb htb
    rw [heq] at htb
    exact Option.noConfusion htb

theorem fixTraceback_fix {o : JObj}
    (h : ∀ tb, jget o "traceback" = some tb → ∃ ts, tb = .arr ts ∧ ∀ t ∈ ts, ∃ s, t = J.str s) :
    fixTraceback o = (o, false) := by
  unfold fixTraceback
  split
  next tb heq =>
    obtain ⟨ts, rfl, hstr⟩ := h tb heq
    have hmap : newTbOf (.arr ts) = ts := by
      unfold newTbOf
      exact list_map_eq_self (fun t ht => by obtain ⟨s, rfl⟩ := hstr t ht; rfl)
    rw [hmap]
    rw [if_pos ((pyEq_arr_left_strs hstr _).mpr rfl)]
  next heq => rfl

theorem fixAttachments_false {c : JObj} (h : (fixAttachments c).2 = false) :
    (fixAttachments c).1 = c := by
  unfold fixAttachments at h ⊢
  by_cases hc : (pyEq (pyGet c "cell_type") (.str "markdown")
      || pyEq (pyGet c "cell_type") (.str "raw")) = true
  · rw [if_pos hc] at h ⊢
    exact coerceObjKey_false h
  · rw [if_neg hc]

theorem fixAttachments_frame (c : JObj) {k : String} (h : k ≠ "attachments") :
    jget (fixAttachments c).1 k = jget c k := by
  unfold fixAttachments
  by_cases hc : (pyEq (pyGet c "cell_type") (.str "markdown")
      || pyEq (pyGet c "cell_type") (.str "raw")) = true
  · rw [if_pos hc]
    exact coerceObjKey_frame _ _ h
  · rw [if_neg hc]

theorem fixAttachments_ne {c : JObj} (h : (fixAttachments c).2 = true) :
    jget (fixAttachments c).1 "attachments" ≠ jget c "attachments" := by
  unfold fixAttachments at h ⊢
  by_cases hc : (pyEq (pyGet c "cell_type") (.str "markdown")
      || pyEq (pyGet c "cell_type") (.str "raw")) = true
  · rw [if_pos hc] at h ⊢
    exact coerceObjKey_ne h
  · rw [if_neg hc] at h
    simp at h

theorem fixAttachments_after (c : JObj)
    (hct : pyGet c "cell_type" = .str "markdown" ∨ pyGet c "cell_type" = .str "raw") :
    ObjOrAbsent (fixAttachments c).1 "attachments" := by
  unfold fixAttachments
  have hc : (pyEq (pyGet c "cell_type") (.str "markdown")
      || pyEq (pyGet c "cell_type") (.str "raw")) = true := by
    rcases hct with h | h <;> simp [(pyEq_str_right _ _).mpr h]
  rw [if_pos hc]
  exact coerceObjKey_after _ _

theorem fixAttachments_fix {c : JObj}
    (h : (pyGet c "cell_type" = .str "markdown" ∨ pyGet c "cell_type" = .str "raw") →
      ObjOrAbsent c "attachments") :
    fixAttachments c = (c, false) := by
  unfold fixAttachments
  by_cases hc : (pyEq (pyGet c "cell_type") (.str "markdown")
      || pyEq (pyGet c "cell_type") (.str "raw")) = true
  · rw [if_pos hc]
    rcases Bool.or_eq_true_iff.mp hc with h1 | h1
    · exact coerceObjKey_fix (h (.inl ((pyEq_str_right _ _).mp h1)))
    · exact coerceObjKey_fix (h (.inr ((pyEq_str_right _ _).mp h1)))
  · rw [if_neg hc]

theorem pyGet_congr {a b : JObj} {k : String} (h : jget a k = jget b k) :
    pyGet a k = pyGet b k := by
  unfold pyGet
  rw [h]

theorem StrOrAbsent_mono {a b : JObj} {k : String} (h : jget a k = jget b k)
    (hb : StrOrAbsent b k) : StrOrAbsent a k :=
  fun v hv => hb v (h ▸ hv)

theorem ObjOrAbsent_mono {a b : JObj} {k : String} (h : jget a k = jget b k)
    (hb : ObjOrAbsent b k) : ObjOrAbsent a k :=
  fun v hv => hb v (h ▸ hv)

theorem EcNorm_mono {a b : JObj} (h : jget a "execution_count" = jget b "execution_count")
    (hb : EcNorm b) : EcNorm a := by
  unfold EcNorm
  rw [pyGet_congr h]
  exact hb

theorem stripOutputs_after (c : JObj) :
    jget (stripOutputs c).1 "outputs" = some (.arr []) ∧
      isNull (pyGet (stripOutputs c).1 "execution_count") = true := by
  unfold stripOutputs
  dsimp only
  by_cases hn : isNull (pyGet (jset c "outputs" (.arr [])) "execution_count") = true
  · rw [if_pos hn]
    exact ⟨jget_jset_self _ _ _, hn⟩
  · rw [if_neg hn]
    constructor
    · rw [jget_jset_ne _ (by decide), jget_jset_self]
    · rw [pyGet_jset_self]
      rfl

theorem stripOutputs_frame (c : JObj) {k : String} (h1 : k ≠ "outputs")
    (h2 : k ≠ "execution_count") : jget (stripOutputs c).1 k = jget c k := by
  unfold stripOutputs
  dsimp only
  by_cases hn : isNull (pyGet (jset c "outputs" (.arr [])) "execution_count") = true
  · rw [if_pos hn]
    exact jget_jset_ne _ (Ne.symm h1) _
  · rw [if_neg hn]
    rw [jget_jset_ne _ (Ne.symm h2), jget_jset_ne _ (Ne.symm h1)]

theorem stripOutputs_true {c : JObj} (h : (stripOutputs c).2 = true) :
    (stripOutputs c).1 ≠ c := by
  unfold stripOutputs at h ⊢
  dsimp only at h ⊢
  by_cases hn : isNull (pyGet (jset c "outputs" (.arr [])) "execution_count") = true
  · rw [if_pos hn] at h ⊢
    simp only [Bool.or_false] at h
    apply ne_of_jget_ne "outputs"
    rw [jget_jset_self]
    cases hj : jget c "outputs" with
    | none => simp
    | some w =>
        intro hcon
        injection hcon with hcon
        have hw : pyGet c "outputs" = w := pyGet_eq_of_jget hj
        rw [hw, ← hcon] at h
        simp [truthy] at h
  · rw [if_neg hn] at h ⊢
    apply ne_of_jget_ne "execution_count"
    rw [jget_jset_self]
    have hne : pyGet c "execution_count" ≠ .null := by
      intro hx
      rw [pyGet_jset_ne _ (by decide), hx] at hn
      exact hn rfl
    cases hj : jget c "execution_count" with
    | none =>
        exact absurd (by unfold pyGet; rw [hj]; rfl) hne
    | some w =>
        intro hcon
        injection hcon with hcon
        exact hne (by rw [pyGet_eq_of_jget hj, ← hcon])

theorem stripOutputs_fix {c : JObj} (h1 : jget c "outputs" = some (.arr []))
    (h2 : isNull (pyGet c "execution_count") = true) : stripOutputs c = (c, false) := by
  unfold stripOutputs
  dsimp only
  rw [jset_eq_of_get h1]
  rw [if_pos h2]
  have ht : truthy (pyGet c "outputs") = false := by
    rw [pyGet_eq_of_jget h1]
    rfl
  rw [ht]
  rfl

theorem stripOutputs_changed {c : JObj}
    (h : (∃ l, pyGet c "outputs" = .arr l ∧ l ≠ []) ∨ pyGet c "execution_count" ≠ .null) :
    (stripOutputs c).2 = true := by
  unfold stripOutputs
  dsimp only
  rcases h with ⟨l, hl, hne⟩ | hec
  · have ht : truthy (pyGet c "outputs") = true := by
      rw [hl]
      simpa [truthy] using hne
    by_cases hn : isNull (pyGet (jset c "outputs" (.arr [])) "execution_count") = true
    · rw [if_pos hn]
      simp [ht]
    · rw [if_neg hn]
      simp [ht]
  · have hn : isNull (pyGet (jset c "outputs" (.arr [])) "execution_count") = false := by
      rw [pyGet_jset_ne _ (by decide)]
      cases hx : pyGet c "execution_count" <;> simp [isNull] at hec ⊢
      exact hec hx
    rw [if_neg (by simp [hn])]
    simp

theorem sanitizeOutput_some (o0 : JObj) :
    ∃ oo ch, sanitizeOutput (.obj o0) = some (.obj oo, ch) := by
  unfold sanitizeOutput
  dsimp only
  split
  · exact ⟨_, _, rfl⟩
  · split
    · exact ⟨_, _, rfl⟩
    · split
      · exact ⟨_, _, rfl⟩
      · exact ⟨_, _, rfl⟩

theorem sanitizeOutput_input {v : J} {r : J × Bool} (h : sanitizeOutput v = some r) :
    ∃ o0, v = .obj o0 := by
  cases v
  case obj o0 => exact ⟨o0, rfl⟩
  all_goals (unfold sanitizeOutput at h; exact Option.noConfusion h)

theorem sanitizeOutput_false {o0 : JObj} {r : J} (h : sanitizeOutput (.obj o0) = some (r, false)) :
    r = .obj o0 := by
  unfold sanitizeOutput at h
  dsimp only at h
  by_cases hb1 : pyEq (pyGet (coerceObjKey o0 "metadata").1 "output_type") (J.str "stream") = true
  · rw [if_pos hb1] at h
    injection h with h
    injection h with h1 h2
    rcases Bool.or_eq_false_iff.mp h2 with ⟨h12, h3f⟩
    rcases Bool.or_eq_false_iff.mp h12 with ⟨h1f, h2f⟩
    rw [coerceStrKey_false h3f, coerceStrKey_false h2f, coerceObjKey_false h1f] at h1
    exact h1.symm
  · rw [if_neg hb1] at h
    by_cases hb2 : (pyEq (pyGet (coerceObjKey o0 "metadata").1 "output_type") (J.str "display_data")
        || pyEq (pyGet (coerceObjKey o0 "metadata").1 "output_type") (J.str "execute_result")) = true
    · rw [if_pos hb2] at h
      by_cases hbe : pyEq (pyGet (coerceObjKey o0 "metadata").1 "output_type")
          (J.str "execute_result") = true
      · rw [if_pos hbe] at h
        injection h with h
        injection h with h1 h2
        rcases Bool.or_eq_false_iff.mp h2 with ⟨h12, h3f⟩
        rcases Bool.or_eq_false_iff.mp h12 with ⟨h1f, h2f⟩
        rw [fixExecCount_false h3f, fixOutData_false h2f, coerceObjKey_false h1f] at h1
        exact h1.symm
      · rw [if_neg hbe] at h
        dsimp only at h
        injection h with h
        injection h with h1 h2
        rcases Bool.or_eq_false_iff.mp h2 with ⟨h12, _⟩
        rcases Bool.or_eq_false_iff.mp h12 with ⟨h1f, h2f⟩
        rw [fixOutData_false h2f, coerceObjKey_false h1f] at h1
        exact h1.symm
    · rw [if_neg hb2] at h
      by_cases hb3 : pyEq (pyGet (coerceObjKey o0 "metadata").1 "output_type")
          (J.str "error") = true
      · rw [if_pos hb3] at h
        injection h with h
        injection h with h1 h2
        rcases Bool.or_eq_false_iff.mp h2 with ⟨h123, h4f⟩
        rcases Bool.or_eq_false_iff.mp h123 with ⟨h12, h3f⟩
        rcases Bool.or_eq_false_iff.mp h12 with ⟨h1f, h2f⟩
        rw [coerceStrKey_false h4f, coerceStrKey_false h3f, fixTraceback_false h2f,
          coerceObjKey_false h1f] at h1
        exact h1.symm
      · rw [if_neg hb3] at h
        injection h with h
        injection h with h1 h2
        rw [coerceObjKey_false h2] at h1
        exact h1.symm

theorem sanitizeOutput_true {o0 : JObj} {r : J} (h : sanitizeOutput (.obj o0) = some (r, true)) :
    r ≠ .obj o0 := by
  unfold sanitizeOutput at h
  dsimp only at h
  by_cases hb1 : pyEq (pyGet (coerceObjKey o0 "metadata").1 "output_type") (J.str "stream") = true
  · rw [if_pos hb1] at h
    injection h with h
    injection h with h1 h2
    subst h1
    intro hcon
    injection hcon with hcon
    rcases Bool.or_eq_true_iff.mp h2 with h12 | h3t
    · rcases Bool.or_eq_true_iff.mp h12 with h1t | h2t
      · apply coerceObjKey_ne h1t
        rw [← coerceStrKey_frame _ "text" (by decide), ← coerceStrKey_frame _ "name" (by decide),
          hcon]
      · apply coerceStrKey_ne h2t
        rw [← coerceStrKey_frame _ "name" (by decide), hcon,
          coerceObjKey_frame _ "metadata" (by decide)]
    · apply coerceStrKey_ne h3t
      rw [hcon, coerceStrKey_frame _ "text" (show ("name" : String) ≠ "text" by decide),
        coerceObjKey_frame _ "metadata" (show ("name" : String) ≠ "metadata" by decide)]
  · rw [if_neg hb1] at h
    by_cases hb2 : (pyEq (pyGet (coerceObjKey o0 "metadata").1 "output_type") (J.str "display_data")
        || pyEq (pyGet (coerceObjKey o0 "metadata").1 "output_type") (J.str "execute_result")) = true
    · rw [if_pos hb2] at h
      by_cases hbe : pyEq (pyGet (coerceObjKey o0 "metadata").1 "output_type")
          (J.str "execute_result") = true
      · rw [if_pos hbe] at h
        injection h with h
        injection h with h1 h2
        subst h1
        intro hcon
        injection hcon with hcon
        rcases Bool.or_eq_true_iff.mp h2 with h12 | h3t
        · rcases Bool.or_eq_true_iff.mp h12 with h1t | h2t
          · apply coerceObjKey_ne h1t
            rw [← fixOutData_frame _ (show ("metadata" : String) ≠ "data" by decide),
              ← fixExecCount_frame _ (show ("metadata" : String) ≠ "execution_count" by decide),
              hcon]
          · apply fixOutData_ne h2t
            rw [← fixExecCount_frame _ (show ("data" : String) ≠ "execution_count" by decide),
              hcon, coerceObjKey_frame _ "metadata" (by decide)]
        · apply fixExecCount_ne h3t
          rw [hcon, fixOutData_frame _ (show ("execution_count" : String) ≠ "data" by decide),
            coerceObjKey_frame _ "metadata"
              (show ("execution_count" : String) ≠ "metadata" by decide)]
      · rw [if_neg hbe] at h
        dsimp only at h
        injection h with h
        injection h with h1 h2
        subst h1
        intro hcon
        injection hcon with hcon
        rcases Bool.or_eq_true_iff.mp h2 with h12 | h3t
        · rcases Bool.or_eq_true_iff.mp h12 with h1t | h2t
          · apply coerceObjKey_ne h1t
            rw [← fixOutData_frame _ (show ("metadata" : String) ≠ "data" by decide), hcon]
          · apply fixOutData_ne h2t
            rw [hcon, coerceObjKey_frame _ "metadata" (by decide)]
        · simp at h3t
    · rw [if_neg hb2] at h
      by_cases hb3 : pyEq (pyGet (coerceObjKey o0 "metadata").1 "output_type")
          (J.str "error") = true
      · rw [if_pos hb3] at h
        injection h with h
        injection h with h1 h2
        subst h1
        intro hcon
        injection hcon with hcon
        rcases Bool.or_eq_true_iff.mp h2 with h123 | h4t
        · rcases Bool.or_eq_true_iff.mp h123 with h12 | h3t
          · rcases Bool.or_eq_true_iff.mp h12 with h1t | h2t
            · apply coerceObjKey_ne h1t
              rw [← fixTraceback_frame _ (show ("metadata" : String) ≠ "traceback" by decide),
                ← coerceStrKey_frame _ "ename" (show ("metadata" : String) ≠ "ename" by decide),
                ← coerceStrKey_frame _ "evalue" (show ("metadata" : String) ≠ "evalue" by decide),
                hcon]
            · apply fixTraceback_ne h2t
              rw [← coerceStrKey_frame _ "ename" (show ("traceback" : String) ≠ "ename" by decide),
                ← coerceStrKey_frame _ "evalue"
                  (show ("traceback" : String) ≠ "evalue" by decide),
                hcon, coerceObjKey_frame _ "metadata" (by decide)]
          · apply coerceStrKey_ne h3t
            rw [← coerceStrKey_frame
                ((coerceStrKey (fixTraceback (coerceObjKey o0 "metadata").1).1 "ename").1)
                "evalue" (show ("ename" : String) ≠ "evalue" by decide),
              hcon, fixTraceback_frame _ (show ("ename" : String) ≠ "traceback" by decide),
              coerceObjKey_frame _ "metadata" (show ("ename" : String) ≠ "metadata" by decide)]
        · apply coerceStrKey_ne h4t
          rw [hcon, coerceStrKey_frame _ "ename" (show ("evalue" : String) ≠ "ename" by decide),
            fixTraceback_frame _ (show ("evalue" : String) ≠ "traceback" by decide),
            coerceObjKey_frame _ "metadata" (show ("evalue" : String) ≠ "metadata" by decide)]
      · rw [if_neg hb3] at h
        injection h with h
        injection h with h1 h2
        subst h1
        intro hcon
        injection hcon with hcon
        apply coerceObjKey_ne h2
        rw [hcon]

theorem sanitizeOutput_after {o0 : JObj} {r : J} {ch : Bool}
    (h : sanitizeOutput (.obj o0) = some (r, ch)) : ∃ oo, r = .obj oo ∧ OutNorm oo := by
  unfold sanitizeOutput at h
  dsimp only at h
  by_cases hb1 : pyEq (pyGet (coerceObjKey o0 "metadata").1 "output_type") (J.str "stream") = true
  · rw [if_pos hb1] at h
    injection h with h
    injection h with h1 h2
    refine ⟨_, h1.symm, ?_, ?_, ?_, ?_, ?_⟩
    · exact ObjOrAbsent_mono (coerceStrKey_frame _ "name" (by decide))
        (ObjOrAbsent_mono (coerceStrKey_frame _ "text" (by decide))
          (coerceObjKey_after o0 "metadata"))
    · intro _
      exact ⟨StrOrAbsent_mono (coerceStrKey_frame _ "name" (by decide))
          (coerceStrKey_after _ "text"),
        coerceStrKey_after _ "name"⟩
    · intro hd _
      exfalso
      have hot : pyGet (coerceStrKey (coerceStrKey (coerceObjKey o0 "metadata").1 "text").1
          "name").1 "output_type" = pyGet (coerceObjKey o0 "metadata").1 "output_type" := by
        apply pyGet_congr
        rw [coerceStrKey_frame _ "name" (by decide), coerceStrKey_frame _ "text" (by decide)]
      have hsv := (pyEq_str_right _ _).mp hb1
      rcases hd with hd | hd <;> (rw [hot] at hd; rw [hd] at hsv; exact absurd hsv (by decide))
    · intro hd
      exfalso
      have hot : pyGet (coerceStrKey (coerceStrKey (coerceObjKey o0 "metadata").1 "text").1
          "name").1 "output_type" = pyGet (coerceObjKey o0 "metadata").1 "output_type" := by
        apply pyGet_congr
        rw [coerceStrKey_frame _ "name" (by decide), coerceStrKey_frame _ "text" (by decide)]
      have hsv := (pyEq_str_right _ _).mp hb1
      rw [hot] at hd
      rw [hd] at hsv
      exact absurd hsv (by decide)
    · intro hd
      exfalso
      have hot : pyGet (coerceStrKey (coerceStrKey (coerceObjKey o0 "metadata").1 "text").1
          "name").1 "output_type" = pyGet (coerceObjKey o0 "metadata").1 "output_type" := by
        apply pyGet_congr
        rw [coerceStrKey_frame _ "name" (by decide), coerceStrKey_frame _ "text" (by decide)]
      have hsv := (pyEq_str_right _ _).mp hb1
      rw [hot] at hd
      rw [hd] at hsv
      exact absurd hsv (by decide)
  · rw [if_neg hb1] at h
    by_cases hb2 : (pyEq (pyGet (coerceObjKey o0 "metadata").1 "output_type") (J.str "display_data")
        || pyEq (pyGet (coerceObjKey o0 "metadata").1 "output_type") (J.str "execute_result")) = true
    · rw [if_pos hb2] at h
      by_cases hbe : pyEq (pyGet (coerceObjKey o0 "metadata").1 "output_type")
          (J.str "execute_result") = true
      · rw [if_pos hbe] at h
        injection h with h
        injection h with h1 h2
        have hexec := (pyEq_str_right _ _).mp hbe
        have hot : pyGet (fixExecCount (fixOutData (coerceObjKey o0 "metadata").1).1).1
            "output_type" = pyGet (coerceObjKey o0 "metadata").1 "output_type" := by
          apply pyGet_congr
          rw [fixExecCount_frame _ (show ("output_type" : String) ≠ "execution_count" by decide),
            fixOutData_frame _ (show ("output_type" : String) ≠ "data" by decide)]
        refine ⟨_, h1.symm, ?_, ?_, ?_, ?_, ?_⟩
        · exact ObjOrAbsent_mono
            (fixExecCount_frame _ (show ("metadata" : String) ≠ "execution_count" by decide))
            (ObjOrAbsent_mono (fixOutData_frame _ (show ("metadata" : String) ≠ "data" by decide))
              (coerceObjKey_after o0 "metadata"))
        · intro hs
          exfalso
          rw [hot, hexec] at hs
          exact absurd hs (by decide)
        · intro _ htr
          have hd : pyGet (fixExecCount (fixOutData (coerceObjKey o0 "metadata").1).1).1 "data"
              = pyGet (fixOutData (coerceObjKey o0 "metadata").1).1 "data" :=
            pyGet_congr (fixExecCount_frame _ (show ("data" : String) ≠ "execution_count" by decide))
          rw [hd] at htr ⊢
          exact fixOutData_after _ htr
        · intro _
          exact fixExecCount_after _
        · intro hs
          exfalso
          rw [hot, hexec] at hs
          exact absurd hs (by decide)
      · rw [if_neg hbe] at h
        dsimp only at h
        injection h with h
        injection h with h1 h2
        have hdisp : pyGet (coerceObjKey o0 "metadata").1 "output_type" = .str "display_data" := by
          rcases Bool.or_eq_true_iff.mp hb2 with hx | hx
          · exact (pyEq_str_right _ _).mp hx
          · exact absurd hx hbe
        have hot : pyGet (fixOutData (coerceObjKey o0 "metadata").1).1 "output_type"
            = pyGet (coerceObjKey o0 "metadata").1 "output_type" :=
          pyGet_congr (fixOutData_frame _ (show ("output_type" : String) ≠ "data" by decide))
        refine ⟨_, h1.symm, ?_, ?_, ?_, ?_, ?_⟩
        · exact ObjOrAbsent_mono (fixOutData_frame _ (show ("metadata" : String) ≠ "data" by decide))
            (coerceObjKey_after o0 "metadata")
        · intro hs
          exfalso
          rw [hot, hdisp] at hs
          exact absurd hs (by decide)
        · intro _ htr
          exact fixOutData_after _ htr
        · intro hs
          exfalso
          rw [hot, hdisp] at hs
          exact absurd hs (by decide)
        · intro hs
          exfalso
          rw [hot, hdisp] at hs
          exact absurd hs (by decide)
    · rw [if_neg hb2] at h
      by_cases hb3 : pyEq (pyGet (coerceObjKey o0 "metadata").1 "output_type")
          (J.str "error") = true
      · rw [if_pos hb3] at h
        injection h with h
        injection h with h1 h2
        have herr := (pyEq_str_right _ _).mp hb3
        have hot : pyGet (coerceStrKey (coerceStrKey
            (fixTraceback (coerceObjKey o0 "metadata").1).1 "ename").1 "evalue").1 "output_type"
            = pyGet (coerceObjKey o0 "metadata").1 "output_type" := by
          apply pyGet_congr
          rw [coerceStrKey_frame _ "evalue" (by decide), coerceStrKey_frame _ "ename" (by decide),
            fixTraceback_frame _ (show ("output_type" : String) ≠ "traceback" by decide)]
        refine ⟨_, h1.symm, ?_, ?_, ?_, ?_, ?_⟩
        · exact ObjOrAbsent_mono (coerceStrKey_frame _ "evalue" (by decide))
            (ObjOrAbsent_mono (coerceStrKey_frame _ "ename" (by decide))
              (ObjOrAbsent_mono
                (fixTraceback_frame _ (show ("metadata" : String) ≠ "traceback" by decide))
                (coerceObjKey_after o0 "metadata")))
        · intro hs
          exfalso
          rw [hot, herr] at hs
          exact absurd hs (by decide)
        · intro hs
          exfalso
          rw [hot, herr] at hs
          rcases hs with hs | hs <;> exact absurd hs (by decide)
        · intro hs
          exfalso
          rw [hot, herr] at hs
          exact absurd hs (by decide)
        · intro _
          refine ⟨?_, ?_, ?_⟩
          · intro tb htb
            rw [coerceStrKey_frame _ "evalue" (show ("traceback" : String) ≠ "evalue" by decide),
              coerceStrKey_frame _ "ename"
                (show ("traceback" : String) ≠ "ename" by decide)] at htb
            exact fixTraceback_after _ tb htb
          · exact StrOrAbsent_mono (coerceStrKey_frame _ "evalue" (by decide))
              (coerceStrKey_after _ "ename")
          · exact coerceStrKey_after _ "evalue"
      · rw [if_neg hb3] at h
        injection h with h
        injection h with h1 h2
        refine ⟨_, h1.symm, ?_, ?_, ?_, ?_, ?_⟩
        · exact coerceObjKey_after o0 "metadata"
        · intro hs
          exact absurd ((pyEq_str_right _ _).mpr hs) hb1
        · intro hs
          exfalso
          rcases hs with hs | hs <;>
            exact hb2 (Bool.or_eq_true_iff.mpr (by
              first
                | exact Or.inl ((pyEq_str_right _ _).mpr hs)
                | exact Or.inr ((pyEq_str_right _ _).mpr hs)))
        · intro hs
          exact absurd (Bool.or_eq_true_iff.mpr (.inr ((pyEq_str_right _ _).mpr hs))) hb2
        · intro hs
          exact absurd ((pyEq_str_right _ _).mpr hs) hb3

theorem sanitizeOutput_fix {oo : JObj} (h : OutNorm oo) :
    sanitizeOutput (.obj oo) = some (.obj oo, false) := by
  obtain ⟨hmeta, hstream, hdata, hec, herr⟩ := h
  unfold sanitizeOutput
  dsimp only
  rw [coerceObjKey_fix hmeta]
  dsimp only
  by_cases hb1 : pyEq (pyGet oo "output_type") (J.str "stream") = true
  · rw [if_pos hb1]
    obtain ⟨htext, hname⟩ := hstream ((pyEq_str_right _ _).mp hb1)
    rw [coerceStrKey_fix htext]
    dsimp only
    rw [coerceStrKey_fix hname]
    rfl
  · rw [if_neg hb1]
    by_cases hb2 : (pyEq (pyGet oo "output_type") (J.str "display_data")
        || pyEq (pyGet oo "output_type") (J.str "execute_result")) = true
    · rw [if_pos hb2]
      have hd : pyGet oo "output_type" = .str "display_data"
          ∨ pyGet oo "output_type" = .str "execute_result" := by
        rcases Bool.or_eq_true_iff.mp hb2 with hx | hx
        · exact .inl ((pyEq_str_right _ _).mp hx)
        · exact .inr ((pyEq_str_right _ _).mp hx)
      rw [fixOutData_fix (hdata hd)]
      dsimp only
      by_cases hbe : pyEq (pyGet oo "output_type") (J.str "execute_result") = true
      · rw [if_pos hbe]
        rw [fixExecCount_fix (hec ((pyEq_str_right _ _).mp hbe))]
        rfl
      · rw [if_neg hbe]
        rfl
    · rw [if_neg hb2]
      by_cases hb3 : pyEq (pyGet oo "output_type") (J.str "error") = true
      · rw [if_pos hb3]
        obtain ⟨htb, hename, hevalue⟩ := herr ((pyEq_str_right _ _).mp hb3)
        rw [fixTraceback_fix htb]
        dsimp only
        rw [coerceStrKey_fix hename]
        dsimp only
        rw [coerceStrKey_fix hevalue]
        rfl
      · rw [if_neg hb3]

theorem sanitizeOutputs_false : ∀ {os rs : List J}, sanitizeOutputs os = some (rs, false) → rs = os
  | [], rs => by
      intro h
      unfold sanitizeOutputs at h
      injection h with h
      injection h with h1 h2
      exact h1.symm
  | o :: os, rs => by
      intro h
      unfold sanitizeOutputs at h
      cases ho : sanitizeOutput o with
      | none => rw [ho] at h; exact Option.noConfusion h
      | some r =>
          obtain ⟨rv, rb⟩ := r
          rw [ho] at h
          cases hos : sanitizeOutputs os with
          | none => rw [hos] at h; exact Option.noConfusion h
          | some rr =>
              obtain ⟨rrv, rrb⟩ := rr
              rw [hos] at h
              injection h with h
              injection h with h1 h2
              rcases Bool.or_eq_false_iff.mp h2 with ⟨hrb, hrrb⟩
              subst hrb
              subst hrrb
              obtain ⟨o1, rfl⟩ := sanitizeOutput_input ho
              have hv := sanitizeOutput_false ho
              have hrec := sanitizeOutputs_false hos
              rw [← h1, hv, hrec]

theorem sanitizeOutputs_true : ∀ {os rs : List J}, sanitizeOutputs os = some (rs, true) → rs ≠ os
  | [], rs => by
      intro h
      unfold sanitizeOutputs at h
      injection h with h
      injection h with h1 h2
      exact absurd h2.symm (by simp)
  | o :: os, rs => by
      intro h
      unfold sanitizeOutputs at h
      cases ho : sanitizeOutput o with
      | none => rw [ho] at h; exact Option.noConfusion h
      | some r =>
          obtain ⟨rv, rb⟩ := r
          rw [ho] at h
          cases hos : sanitizeOutputs os with
          | none => rw [hos] at h; exact Option.noConfusion h
          | some rr =>
              obtain ⟨rrv, rrb⟩ := rr
              rw [hos] at h
              injection h with h
              injection h with h1 h2
              subst h1
              obtain ⟨o1, rfl⟩ := sanitizeOutput_input ho
              intro hcon
              injection hcon with hh ht
              rcases Bool.or_eq_true_iff.mp h2 with hrb | hrrb
              · have hrb2 : rb = true := hrb
                subst hrb2
                exact sanitizeOutput_true ho hh
              · have hrrb2 : rrb = true := hrrb
                subst hrrb2
                exact sanitizeOutputs_true hos ht

theorem sanitizeOutputs_after : ∀ {os rs : List J} {ch : Bool},
    sanitizeOutputs os = some (rs, ch) → ∀ r ∈ rs, ∃ oo, r = .obj oo ∧ OutNorm oo
  | [], rs, ch => by
      intro h r hr
      unfold sanitizeOutputs at h
      injection h with h
      injection h with h1 h2
      rw [← h1] at hr
      exact absurd hr (List.not_mem_nil r)
  | o :: os, rs, ch => by
      intro h r hr
      unfold sanitizeOutputs at h
      cases ho : sanitizeOutput o with
      | none => rw [ho] at h; exact Option.noConfusion h
      | some r0 =>
          obtain ⟨rv, rb⟩ := r0
          rw [ho] at h
          cases hos : sanitizeOutputs os with
          | none => rw [hos] at h; exact Option.noConfusion h
          | some rr =>
              obtain ⟨rrv, rrb⟩ := rr
              rw [hos] at h
              injection h with h
              injection h with h1 h2
              rw [← h1] at hr
              rcases List.mem_cons.mp hr with rfl | hr2
              · obtain ⟨o1, rfl⟩ := sanitizeOutput_input ho
                exact sanitizeOutput_after ho
              · exact sanitizeOutputs_after hos r hr2

theorem sanitizeOutputs_length : ∀ {os rs : List J} {ch : Bool},
    sanitizeOutputs os = some (rs, ch) → rs.length = os.length
  | [], rs, ch => by
      intro h
      unfold sanitizeOutputs at h
      injection h with h
      injection h with h1 h2
      rw [← h1]
  | o :: os, rs, ch => by
      intro h
      unfold sanitizeOutputs at h
      cases ho : sanitizeOutput o with
      | none => rw [ho] at h; exact Option.noConfusion h
      | some r0 =>
          obtain ⟨rv, rb⟩ := r0
          rw [ho] at h
          cases hos : sanitizeOutputs os with
          | none => rw [hos] at h; exact Option.noConfusion h
          | some rr =>
              obtain ⟨rrv, rrb⟩ := rr
              rw [hos] at h
              injection h with h
              injection h with h1 h2
              rw [← h1]
              simp [sanitizeOutputs_length hos]

theorem sanitizeOutputs_fix : ∀ {os : List J},
    (∀ o ∈ os, ∃ oo, o = .obj oo ∧ OutNorm oo) → sanitizeOutputs os = some (os, false)
  | [] => by
      intro _
      rfl
  | o :: os => by
      intro h
      obtain ⟨oo, rfl, hn⟩ := h o (by simp)
      unfold sanitizeOutputs
      rw [sanitizeOutput_fix hn, sanitizeOutputs_fix (fun o ho => h o (by simp [ho]))]
      rfl

theorem fixOutputsNormalize_false {c c1 : JObj} (h : fixOutputsNormalize c = some (c1, false)) :
    c1 = c := by
  unfold fixOutputsNormalize at h
  by_cases hc : truthy (pyGet c "outputs") = true
  · rw [if_pos hc] at h
    split at h
    next os heq =>
      cases hos : sanitizeOutputs os with
      | none => rw [hos] at h; exact Option.noConfusion h
      | some rr =>
          obtain ⟨rrv, rrb⟩ := rr
          rw [hos] at h
          injection h with h
          injection h with h1 h2
          subst h2
          rw [sanitizeOutputs_false hos] at h1
          rw [← h1, jset_eq_of_get (jget_of_pyGet heq (by simp))]
    next x hne =>
      injection h with h
      injection h with h1 h2
      exact absurd h2.symm (by simp)
  · rw [if_neg hc] at h
    injection h with h
    injection h with h1 h2
    exact h1.symm

theorem fixOutputsNormalize_true {c c1 : JObj} (h : fixOutputsNormalize c = some (c1, true)) :
    jget c1 "outputs" ≠ jget c "outputs" := by
  unfold fixOutputsNormalize at h
  by_cases hc : truthy (pyGet c "outputs") = true
  · rw [if_pos hc] at h
    split at h
    next os heq =>
      cases hos : sanitizeOutputs os with
      | none => rw [hos] at h; exact Option.noConfusion h
      | some rr =>
          obtain ⟨rrv, rrb⟩ := rr
          rw [hos] at h
          injection h with h
          injection h with h1 h2
          subst h2
          rw [← h1, jget_jset_self, jget_of_pyGet heq (by simp)]
          intro hcon
          injection hcon with hcon
          injection hcon with hcon
          exact sanitizeOutputs_true hos hcon
    next x hne =>
      injection h with h
      injection h with h1 h2
      rw [← h1, jget_jset_self]
      have hd : pyGet c "outputs" ≠ .null := by
        intro hx
        rw [hx] at hc
        simp [truthy] at hc
      rw [jget_of_pyGet rfl hd]
      intro hcon
      injection hcon with hcon
      exact hne [] hcon.symm
  · rw [if_neg hc] at h
    injection h with h
    injection h with h1 h2
    exact absurd h2.symm (by simp)

theorem fixOutputsNormalize_frame {c c1 : JObj} {ch : Bool}
    (h : fixOutputsNormalize c = some (c1, ch)) {k : String} (hk : k ≠ "outputs") :
    jget c1 k = jget c k := by
  unfold fixOutputsNormalize at h
  by_cases hc : truthy (pyGet c "outputs") = true
  · rw [if_pos hc] at h
    split at h
    next os heq =>
      cases hos : sanitizeOutputs os with
      | none => rw [hos] at h; exact Option.noConfusion h
      | some rr =>
          rw [hos] at h
          injection h with h
          injection h with h1 h2
          rw [← h1]
          exact jget_jset_ne _ (Ne.symm hk) _
    next x hne =>
      injection h with h
      injection h with h1 h2
      rw [← h1]
      exact jget_jset_ne _ (Ne.symm hk) _
  · rw [if_neg hc] at h
    injection h with h
    injection h with h1 h2
    rw [← h1]

theorem fixOutputsNormalize_after {c c1 : JObj} {ch : Bool}
    (h : fixOutputsNormalize c = some (c1, ch)) :
    truthy (pyGet c1 "outputs") = true →
      ∃ os, pyGet c1 "outputs" = .arr os ∧ ∀ o ∈ os, ∃ oo, o = .obj oo ∧ OutNorm oo := by
  unfold fixOutputsNormalize at h
  by_cases hc : truthy (pyGet c "outputs") = true
  · rw [if_pos hc] at h
    split at h
    next os heq =>
      cases hos : sanitizeOutputs os with
      | none => rw [hos] at h; exact Option.noConfusion h
      | some rr =>
          obtain ⟨rrv, rrb⟩ := rr
          rw [hos] at h
          injection h with h
          injection h with h1 h2
          rw [← h1]
          intro _
          rw [pyGet_jset_self]
          exact ⟨rrv, rfl, sanitizeOutputs_after hos⟩
    next x hne =>
      injection h with h
      injection h with h1 h2
      rw [← h1]
      intro htr
      rw [pyGet_jset_self] at htr
      simp [truthy] at htr
  · rw [if_neg hc] at h
    injection h with h
    injection h with h1 h2
    rw [← h1]
    intro htr
    exact absurd htr hc

theorem fixOutputsNormalize_fix {c : JObj}
    (h : truthy (pyGet c "outputs") = true →
      ∃ os, pyGet c "outputs" = .arr os ∧ ∀ o ∈ os, ∃ oo, o = .obj oo ∧ OutNorm oo) :
    fixOutputsNormalize c = some (c, false) := by
  unfold fixOutputsNormalize
  by_cases hc : truthy (pyGet c "outputs") = true
  · obtain ⟨os, hpg, hnorm⟩ := h hc
    rw [if_pos hc]
    split
    next os1 heq1 =>
      rw [hpg] at heq1
      injection heq1 with heq1
      subst heq1
      rw [sanitizeOutputs_fix hnorm]
      show some (jset c "outputs" (J.arr os), false) = some (c, false)
      rw [jset_eq_of_get (jget_of_pyGet hpg (by simp))]
    next x hne1 => exact absurd hpg (hne1 os)
  · rw [if_neg hc]

theorem fixTags_false {m : JObj} (h : (fixTags m).2 = false) : (fixTags m).1 = m := by
  rcases fixTags_spec m with ⟨he, _⟩ | ⟨ts, _, _, he⟩
  · rw [he]
  · rw [he] at h
    simp at h

theorem fixTags_frame (m : JObj) {k : String} (hk : k ≠ "tags") :
    jget (fixTags m).1 k = jget m k := by
  rcases fixTags_spec m with ⟨he, _⟩ | ⟨ts, _, _, he⟩
  · rw [he]
  · rw [he]
    exact jget_jset_ne _ (Ne.symm hk) _

theorem fixTags_ne {m : JObj} (h : (fixTags m).2 = true) :
    jget (fixTags m).1 "tags" ≠ jget m "tags" := by
  rcases fixTags_spec m with ⟨he, _⟩ | ⟨ts, hpg, hne, he⟩
  · rw [he] at h
    simp at h
  · rw [he]
    rw [jget_jset_self, jget_of_pyGet hpg (by simp)]
    intro hcon
    injection hcon with hcon
    exact hne hcon

theorem fixTags_after (m : JObj) : TagsNorm (fixTags m).1 := by
  rcases fixTags_spec m with ⟨he, hn⟩ | ⟨ts, hpg, hne, he⟩
  · rw [he]
    exact hn
  · rw [he]
    intro ts1 h1 t ht
    rw [pyGet_jset_self] at h1
    injection h1 with h1
    subst h1
    exact newTags_strs ts t ht

theorem fixExecution_false {m : JObj} (h : (fixExecution m).2 = false) : (fixExecution m).1 = m := by
  rcases fixExecution_spec m with ⟨he, _⟩ | ⟨ht, _, _, _⟩
  · rw [he]
  · rw [ht] at h
    exact absurd h (by simp)

theorem fixExecution_frame (m : JObj) {k : String} (hk : k ≠ "execution") :
    jget (fixExecution m).1 k = jget m k := by
  rcases fixExecution_spec m with ⟨he, _⟩ | ⟨_, _, hf, _⟩
  · rw [he]
  · exact hf k hk

theorem fixExecution_ne {m : JObj} (h : (fixExecution m).2 = true) :
    jget (fixExecution m).1 "execution" ≠ jget m "execution" := by
  rcases fixExecution_spec m with ⟨he, _⟩ | ⟨_, hne, _, _⟩
  · rw [he] at h
    simp at h
  · exact hne

theorem fixExecution_after (m : JObj) : ExecNorm (fixExecution m).1 := by
  rcases fixExecution_spec m with ⟨he, hn⟩ | ⟨_, _, _, hn⟩
  · rw [he]
    exact hn
  · exact hn

theorem fixId_frame (ids : Nat → String) (g : Nat) (c0 : JObj) {k : String} (hk : k ≠ "id") :
    jget (fixId ids g c0).1 k = jget c0 k := by
  rcases fixId_spec ids g c0 with ⟨_, he⟩ | ⟨_, he⟩
  · rw [he]
  · rw [he]
    exact jget_jset_ne _ (Ne.symm hk) _

theorem fixId_after (ids : Nat → String) (g : Nat) (c0 : JObj) (hids : ∀ n, ids n ≠ "") :
    idOk (pyGet (fixId ids g c0).1 "id") = true := by
  rcases fixId_spec ids g c0 with ⟨hok, he⟩ | ⟨_, he⟩
  · rw [he]
    exact hok
  · rw [he]
    show idOk (pyGet (jset c0 "id" (.str (ids g))) "id") = true
    rw [pyGet_jset_self]
    have hie : (ids g).isEmpty = false := by
      cases hx : (ids g).isEmpty
      · rfl
      · exact absurd ((String.isEmpty_iff _).mp hx) (hids g)
    simp [idOk, hie]

theorem fixId_ne {ids : Nat → String} {g : Nat} {c0 : JObj}
    (h : (fixId ids g c0).2.1 = true) (hids : ∀ n, ids n ≠ "") :
    jget (fixId ids g c0).1 "id" ≠ jget c0 "id" := by
  rcases fixId_spec ids g c0 with ⟨_, he⟩ | ⟨hok, he⟩
  · rw [he] at h
    simp at h
  · rw [he]
    show jget (jset c0 "id" (.str (ids g))) "id" ≠ jget c0 "id"
    rw [jget_jset_self]
    cases hj : jget c0 "id" with
    | none => simp
    | some w =>
        intro hcon
        injection hcon with hcon
        rw [← hcon] at hj
        have : pyGet c0 "id" = .str (ids g) := pyGet_eq_of_jget hj
        rw [this] at hok
        simp only [idOk] at hok
        have hie : (ids g).isEmpty = true := by
          revert hok
          cases (ids g).isEmpty <;> simp
        exact hids g ((String.isEmpty_iff _).mp hie)

theorem fixId_gen {ids : Nat → String} {g : Nat} {c0 : JObj}
    (h : (fixId ids g c0).2.1 = false) : (fixId ids g c0).2.2 = g ∧ (fixId ids g c0).1 = c0 := by
  rcases fixId_spec ids g c0 with ⟨_, he⟩ | ⟨_, he⟩
  · rw [he]
    exact ⟨rfl, rfl⟩
  · rw [he] at h
    simp at h

theorem fixCellMetadata_def (c : JObj) :
    fixCellMetadata c =
      match jget (coerceObjKey c "metadata").1 "metadata" with
      | some (.obj m0) =>
          some (jset (coerceObjKey c "metadata").1 "metadata"
                  (.obj (fixExecution (fixTags m0).1).1),
                (coerceObjKey c "metadata").2 || (fixTags m0).2 || (fixExecution (fixTags m0).1).2)
      | _ => none := rfl

theorem fixCellMetadata_frame {c c1 : JObj} {ch : Bool}
    (h : fixCellMetadata c = some (c1, ch)) {k : String} (hk : k ≠ "metadata") :
    jget c1 k = jget c k := by
  rw [fixCellMetadata_def] at h
  split at h
  next m0 heq =>
    injection h with h
    injection h with h1 h2
    rw [← h1, jget_jset_ne _ (Ne.symm hk)]
    exact coerceObjKey_frame _ _ hk
  next hne => exact Option.noConfusion h

theorem fixCellMetadata_after {c c1 : JObj} {ch : Bool}
    (h : fixCellMetadata c = some (c1, ch)) :
    ∃ m, jget c1 "metadata" = some (.obj m) ∧ TagsNorm m ∧ ExecNorm m := by
  rw [fixCellMetadata_def] at h
  split at h
  next m0 heq =>
    injection h with h
    injection h with h1 h2
    rw [← h1, jget_jset_self]
    refine ⟨_, rfl, ?_, fixExecution_after _⟩
    intro ts hts
    rw [pyGet_congr (fixExecution_frame _ (show ("tags" : String) ≠ "execution" by decide))] at hts
    exact fixTags_after m0 ts hts
  next hne => exact Option.noConfusion h

theorem fixCellMetadata_false {c c1 : JObj} (h : fixCellMetadata c = some (c1, false)) :
    c1 = c := by
  rw [fixCellMetadata_def] at h
  split at h
  next m0 heq =>
    injection h with h
    injection h with h1 h2
    rcases Bool.or_eq_false_iff.mp h2 with ⟨h12, ht2⟩
    rcases Bool.or_eq_false_iff.mp h12 with ⟨hs3, ht1⟩
    rw [fixExecution_false ht2, fixTags_false ht1] at h1
    rw [coerceObjKey_false hs3] at h1 heq
    rw [← h1, jset_eq_of_get heq]
  next hne => exact Option.noConfusion h

theorem fixCellMetadata_true {c c1 : JObj} (h : fixCellMetadata c = some (c1, true)) :
    jget c1 "metadata" ≠ jget c "metadata" := by
  rw [fixCellMetadata_def] at h
  split at h
  next m0 heq =>
    injection h with h
    injection h with h1 h2
    rw [← h1, jget_jset_self]
    by_cases hs3 : (coerceObjKey c "metadata").2 = true
    · rcases coerceObjKey_spec c "metadata" with ⟨_, he⟩ | ⟨v, hj, hv, he⟩
      · rw [he] at hs3
        simp at hs3
      · rw [hj]
        intro hcon
        injection hcon with hcon
        rw [← hcon] at hv
        simp [isObjJ] at hv
    · have hs3f : (coerceObjKey c "metadata").2 = false := by simpa using hs3
      rw [coerceObjKey_false hs3f] at heq
      rw [heq]
      rw [hs3f] at h2
      simp only [Bool.false_or] at h2
      intro hcon
      injection hcon with hcon
      injection hcon with hcon
      rcases Bool.or_eq_true_iff.mp h2 with ht1 | ht2
      · apply fixTags_ne ht1
        rw [← fixExecution_frame _ (show ("tags" : String) ≠ "execution" by decide), hcon]
      · apply fixExecution_ne ht2
        rw [hcon, fixTags_frame _ (show ("execution" : String) ≠ "tags" by decide)]
  next hne => exact Option.noConfusion h

theorem fixCellMetadata_fix {c : JObj} {m : JObj} (hj : jget c "metadata" = some (.obj m))
    (htags : TagsNorm m) (hexec : ExecNorm m) : fixCellMetadata c = some (c, false) := by
  rw [fixCellMetadata_def]
  rw [coerceObjKey_fix (fun v hv => by rw [hj] at hv; injection hv with hv; exact ⟨m, hv.symm⟩)]
  dsimp only
  rw [hj]
  show some (jset c "metadata" (J.obj (fixExecution (fixTags m).1).1),
        false || (fixTags m).2 || (fixExecution (fixTags m).1).2) = some (c, false)
  rw [fixTags_fix htags]
  dsimp only
  rw [fixExecution_fix hexec]
  dsimp only
  rw [jset_eq_of_get hj]
  rfl

theorem stripOutputs_ne {c : JObj} (h : (stripOutputs c).2 = true) :
    jget (stripOutputs c).1 "outputs" ≠ jget c "outputs" ∨
      jget (stripOutputs c).1 "execution_count" ≠ jget c "execution_count" := by
  unfold stripOutputs at h ⊢
  dsimp only at h ⊢
  by_cases hn : isNull (pyGet (jset c "outputs" (.arr [])) "execution_count") = true
  · rw [if_pos hn] at h ⊢
    simp only [Bool.or_false] at h
    left
    rw [jget_jset_self]
    cases hj : jget c "outputs" with
    | none => simp
    | some w =>
        intro hcon
        injection hcon with hcon
        have hw : pyGet c "outputs" = w := pyGet_eq_of_jget hj
        rw [hw, ← hcon] at h
        simp [truthy] at h
  · rw [if_neg hn] at h ⊢
    right
    rw [jget_jset_self]
    have hne : pyGet c "execution_count" ≠ .null := by
      intro hx
      rw [pyGet_jset_ne _ (by decide), hx] at hn
      exact hn rfl
    cases hj : jget c "execution_count" with
    | none =>
        exact absurd (by unfold pyGet; rw [hj]; rfl) hne
    | some w =>
        intro hcon
        injection hcon with hcon
        exact hne (by rw [pyGet_eq_of_jget hj, ← hcon])

theorem cellHead_frame {ids : Nat → String} {g : Nat} {c0 c4 : JObj} {ch4 : Bool}
    (hm : fixCellMetadata (coerceStrKey (fixId ids g c0).1 "source").1 = some (c4, ch4))
    {k : String} (h1 : k ≠ "id") (h2 : k ≠ "source") (h3 : k ≠ "metadata")
    (h4 : k ≠ "attachments") : jget (fixAttachments c4).1 k = jget c0 k := by
  rw [fixAttachments_frame _ h4, fixCellMetadata_frame hm h3, coerceStrKey_frame _ _ h2,
    fixId_frame _ _ _ h1]

theorem cellHead_false {ids : Nat → String} {g : Nat} {c0 c4 : JObj}
    (hm : fixCellMetadata (coerceStrKey (fixId ids g c0).1 "source").1 = some (c4, false))
    (h1 : (fixId ids g c0).2.1 = false)
    (h2 : (coerceStrKey (fixId ids g c0).1 "source").2 = false)
    (h6 : (fixAttachments c4).2 = false) :
    (fixAttachments c4).1 = c0 ∧ (fixId ids g c0).2.2 = g := by
  obtain ⟨hg, hc1⟩ := fixId_gen h1
  have hc2 := coerceStrKey_false h2
  have hc4 := fixCellMetadata_false hm
  have hc6 := fixAttachments_false h6
  rw [hc6, hc4, hc2, hc1]
  exact ⟨rfl, hg⟩

theorem cellHead_ne {ids : Nat → String} {g : Nat} {c0 c4 : JObj} {ch4 : Bool}
    (hm : fixCellMetadata (coerceStrKey (fixId ids g c0).1 "source").1 = some (c4, ch4))
    (hids : ∀ n, ids n ≠ "")
    (h : ((fixId ids g c0).2.1 || (coerceStrKey (fixId ids g c0).1 "source").2 || ch4
          || (fixAttachments c4).2) = true) :
    ∃ k, k ≠ "cell_type" ∧ k ≠ "outputs" ∧ k ≠ "execution_count" ∧
      jget (fixAttachments c4).1 k ≠ jget c0 k := by
  rcases Bool.or_eq_true_iff.mp h with h123 | h6
  · rcases Bool.or_eq_true_iff.mp h123 with h12 | h4
    · rcases Bool.or_eq_true_iff.mp h12 with h1 | h2
      · refine ⟨"id", by decide, by decide, by decide, ?_⟩
        rw [fixAttachments_frame _ (by decide), fixCellMetadata_frame hm (by decide),
          coerceStrKey_frame _ _ (by decide)]
        exact fixId_ne h1 hids
      · refine ⟨"source", by decide, by decide, by decide, ?_⟩
        rw [fixAttachments_frame _ (by decide), fixCellMetadata_frame hm (by decide)]
        intro hcon
        apply coerceStrKey_ne h2
        rw [hcon, ← fixId_frame ids g c0 (show ("source" : String) ≠ "id" by decide)]
    · refine ⟨"metadata", by decide, by decide, by decide, ?_⟩
      rw [fixAttachments_frame _ (by decide)]
      have hm2 : fixCellMetadata (coerceStrKey (fixId ids g c0).1 "source").1 = some (c4, true) := by
        rw [hm, h4]
      intro hcon
      apply fixCellMetadata_true hm2
      rw [hcon, ← fixId_frame ids g c0 (show ("metadata" : String) ≠ "id" by decide),
        ← coerceStrKey_frame _ "source" (show ("metadata" : String) ≠ "source" by decide)]
  · refine ⟨"attachments", by decide, by decide, by decide, ?_⟩
    intro hcon
    apply fixAttachments_ne h6
    rw [hcon, ← fixId_frame ids g c0 (show ("attachments" : String) ≠ "id" by decide),
      ← coerceStrKey_frame _ "source" (show ("attachments" : String) ≠ "source" by decide),
      ← fixCellMetadata_frame hm (show ("attachments" : String) ≠ "metadata" by decide)]

theorem cellHead_after {ids : Nat → String} {g : Nat} {c0 c4 : JObj} {ch4 : Bool}
    (hm : fixCellMetadata (coerceStrKey (fixId ids g c0).1 "source").1 = some (c4, ch4))
    (hids : ∀ n, ids n ≠ "") :
    idOk (pyGet (fixAttachments c4).1 "id") = true ∧
    StrOrAbsent (fixAttachments c4).1 "source" ∧
    (∃ m, jget (fixAttachments c4).1 "metadata" = some (.obj m) ∧ TagsNorm m ∧ ExecNorm m) ∧
    ((pyGet (fixAttachments c4).1 "cell_type" = .str "markdown"
        ∨ pyGet (fixAttachments c4).1 "cell_type" = .str "raw") →
      ObjOrAbsent (fixAttachments c4).1 "attachments") := by
  have hctf : jget (fixAttachments c4).1 "cell_type" = jget c4 "cell_type" :=
    fixAttachments_frame _ (by decide)
  refine ⟨?_, ?_, ?_, ?_⟩
  · have hf : jget (fixAttachments c4).1 "id" = jget (fixId ids g c0).1 "id" := by
      rw [fixAttachments_frame _ (by decide), fixCellMetadata_frame hm (by decide),
        coerceStrKey_frame _ _ (by decide)]
    rw [pyGet_congr hf]
    exact fixId_after ids g c0 hids
  · have hf : jget (fixAttachments c4).1 "source"
        = jget (coerceStrKey (fixId ids g c0).1 "source").1 "source" := by
      rw [fixAttachments_frame _ (by decide), fixCellMetadata_frame hm (by decide)]
    exact StrOrAbsent_mono hf (coerceStrKey_after _ "source")
  · have hf : jget (fixAttachments c4).1 "metadata" = jget c4 "metadata" :=
      fixAttachments_frame _ (by decide)
    obtain ⟨m, hjm, ht, he⟩ := fixCellMetadata_after hm
    exact ⟨m, by rw [hf]; exact hjm, ht, he⟩
  · intro hct
    rw [pyGet_congr hctf] at hct
    exact fixAttachments_after c4 hct

theorem sanitizeCell_input {ids : Nat → String} {strip : Bool} {g : Nat} {c : J}
    {r : J × Bool × Nat} (h : sanitizeCell ids strip g c = some r) : ∃ c0, c = .obj c0 := by
  cases c
  case obj c0 => exact ⟨c0, rfl⟩
  all_goals (unfold sanitizeCell at h; exact Option.noConfusion h)

theorem sanitizeCell_false {ids : Nat → String} {g : Nat} {c0 : JObj} {r : J} {g1 : Nat}
    (h : sanitizeCell ids false g (.obj c0) = some (r, false, g1)) : r = .obj c0 ∧ g1 = g := by
  unfold sanitizeCell at h
  dsimp only at h
  cases hm : fixCellMetadata (coerceStrKey (fixId ids g c0).1 "source").1 with
  | none => rw [hm] at h; exact Option.noConfusion h
  | some s4 =>
      obtain ⟨c4, ch4⟩ := s4
      rw [hm] at h
      dsimp only at h
      by_cases hcode : pyEq (pyGet (fixAttachments c4).1 "cell_type") (.str "code") = true
      · rw [if_pos hcode, if_neg (by decide : ¬(false = true))] at h
        cases hn : fixOutputsNormalize (fixAttachments c4).1 with
        | none => rw [hn] at h; exact Option.noConfusion h
        | some rr =>
            obtain ⟨c6, ch6⟩ := rr
            rw [hn] at h
            dsimp only at h
            injection h with h
            injection h with h1 h2
            injection h2 with h2 h3
            rcases Bool.or_eq_false_iff.mp h2 with ⟨h2a, hec⟩
            rcases Bool.or_eq_false_iff.mp h2a with ⟨hhead, h6f⟩
            rcases Bool.or_eq_false_iff.mp hhead with ⟨hh3, h6a⟩
            rcases Bool.or_eq_false_iff.mp hh3 with ⟨hh2, hch4⟩
            rcases Bool.or_eq_false_iff.mp hh2 with ⟨hh1, hh2b⟩
            have hch4d : ch4 = false := hch4
            subst hch4d
            have h6d : ch6 = false := h6f
            subst h6d
            obtain ⟨hc5, hg⟩ := cellHead_false hm hh1 hh2b h6a
            have hc6 := fixOutputsNormalize_false hn
            have hec1 := fixExecCount_false hec
            rw [← h1, hec1, hc6, hc5]
            exact ⟨rfl, h3 ▸ hg⟩
      · rw [if_neg hcode] at h
        injection h with h
        injection h with h1 h2
        injection h2 with h2 h3
        rcases Bool.or_eq_false_iff.mp h2 with ⟨hhead, h6a⟩
        rcases Bool.or_eq_false_iff.mp hhead with ⟨hh3, hch4⟩
        rcases Bool.or_eq_false_iff.mp hh3 with ⟨hh1, hh2b⟩
        have hch4d : ch4 = false := hch4
        subst hch4d
        obtain ⟨hc5, hg⟩ := cellHead_false hm hh1 hh2b h6a
        rw [← h1, hc5]
        exact ⟨rfl, h3 ▸ hg⟩

theorem sanitizeCell_true {ids : Nat → String} {strip : Bool} {g : Nat} {c0 : JObj} {r : J}
    {g1 : Nat} (h : sanitizeCell ids strip g (.obj c0) = some (r, true, g1))
    (hids : ∀ n, ids n ≠ "") : r ≠ .obj c0 := by
  unfold sanitizeCell at h
  dsimp only at h
  cases hm : fixCellMetadata (coerceStrKey (fixId ids g c0).1 "source").1 with
  | none => rw [hm] at h; exact Option.noConfusion h
  | some s4 =>
      obtain ⟨c4, ch4⟩ := s4
      rw [hm] at h
      dsimp only at h
      by_cases hcode : pyEq (pyGet (fixAttachments c4).1 "cell_type") (.str "code") = true
      · rw [if_pos hcode] at h
        by_cases hstrip : strip = true
        · rw [if_pos hstrip] at h
          injection h with h
          injection h with h1 h2
          injection h2 with h2 h3
          rw [← h1]
          intro hcon
          injection hcon with hcon
          rcases Bool.or_eq_true_iff.mp h2 with hhead | hso
          · obtain ⟨k, _, hk2, hk3, hkne⟩ := cellHead_ne hm hids hhead
            apply hkne
            rw [← stripOutputs_frame _ hk2 hk3, hcon]
          · rcases stripOutputs_ne hso with hne | hne <;>
              (apply hne; rw [hcon, ← cellHead_frame hm (by decide) (by decide) (by decide)
                (by decide)])
        · rw [if_neg hstrip] at h
          cases hn : fixOutputsNormalize (fixAttachments c4).1 with
          | none => rw [hn] at h; exact Option.noConfusion h
          | some rr =>
              obtain ⟨c6, ch6⟩ := rr
              rw [hn] at h
              dsimp only at h
              injection h with h
              injection h with h1 h2
              injection h2 with h2 h3
              rw [← h1]
              intro hcon
              injection hcon with hcon
              rcases Bool.or_eq_true_iff.mp h2 with h2a | hec
              · rcases Bool.or_eq_true_iff.mp h2a with hhead | h6t
                · obtain ⟨k, _, hk2, hk3, hkne⟩ := cellHead_ne hm hids hhead
                  apply hkne
                  rw [← fixOutputsNormalize_frame hn hk2, ← fixExecCount_frame _ hk3, hcon]
                · have h6d : ch6 = true := h6t
                  subst h6d
                  apply fixOutputsNormalize_true hn
                  rw [← fixExecCount_frame _ (show ("outputs" : String) ≠ "execution_count"
                    by decide), hcon,
                    ← cellHead_frame hm (by decide) (by decide) (by decide) (by decide)]
              · apply fixExecCount_ne hec
                rw [hcon, ← cellHead_frame hm (by decide) (by decide) (by decide) (by decide),
                  ← fixOutputsNormalize_frame hn (show ("execution_count" : String) ≠ "outputs"
                    by decide)]
      · rw [if_neg hcode] at h
        injection h with h
        injection h with h1 h2
        injection h2 with h2 h3
        rw [← h1]
        intro hcon
        injection hcon with hcon
        obtain ⟨k, _, _, _, hkne⟩ := cellHead_ne hm hids h2
        exact hkne (by rw [hcon])

theorem sanitizeCell_after {ids : Nat → String} {strip : Bool} {g : Nat} {c0 : JObj} {r : J}
    {ch : Bool} {g1 : Nat} (h : sanitizeCell ids strip g (.obj c0) = some (r, ch, g1))
    (hids : ∀ n, ids n ≠ "") : ∃ co, r = .obj co ∧ CellNorm strip co := by
  unfold sanitizeCell at h
  dsimp only at h
  cases hm : fixCellMetadata (coerceStrKey (fixId ids g c0).1 "source").1 with
  | none => rw [hm] at h; exact Option.noConfusion h
  | some s4 =>
      obtain ⟨c4, ch4⟩ := s4
      rw [hm] at h
      dsimp only at h
      obtain ⟨hid5, hsrc5, hmeta5, hatt5⟩ := cellHead_after hm hids
      by_cases hcode : pyEq (pyGet (fixAttachments c4).1 "cell_type") (.str "code") = true
      · rw [if_pos hcode] at h
        by_cases hstrip : strip = true
        · subst hstrip
          rw [if_pos rfl] at h
          injection h with h
          injection h with h1 h2
          refine ⟨_, h1.symm, ?_, ?_, ?_, ?_, ?_⟩
          · rw [pyGet_congr (stripOutputs_frame _ (by decide) (by decide))]
            exact hid5
          · exact StrOrAbsent_mono (stripOutputs_frame _ (by decide) (by decide)) hsrc5
          · obtain ⟨m, hjm, ht, he⟩ := hmeta5
            exact ⟨m, by rw [stripOutputs_frame _ (by decide) (by decide)]; exact hjm, ht, he⟩
          · intro hct
            rw [pyGet_congr (stripOutputs_frame _ (by decide) (by decide))] at hct
            exact ObjOrAbsent_mono (stripOutputs_frame _ (by decide) (by decide)) (hatt5 hct)
          · intro _
            rw [if_pos rfl]
            exact stripOutputs_after _
        · have hsf : strip = false := by simpa using hstrip
          subst hsf
          rw [if_neg (by decide : ¬(false = true))] at h
          cases hn : fixOutputsNormalize (fixAttachments c4).1 with
          | none => rw [hn] at h; exact Option.noConfusion h
          | some rr =>
              obtain ⟨c6, ch6⟩ := rr
              rw [hn] at h
              dsimp only at h
              injection h with h
              injection h with h1 h2
              refine ⟨_, h1.symm, ?_, ?_, ?_, ?_, ?_⟩
              · rw [pyGet_congr (fixExecCount_frame _ (by decide)),
                  pyGet_congr (fixOutputsNormalize_frame hn (by decide))]
                exact hid5
              · exact StrOrAbsent_mono (fixExecCount_frame _ (by decide))
                  (StrOrAbsent_mono (fixOutputsNormalize_frame hn (by decide)) hsrc5)
              · obtain ⟨m, hjm, ht, he⟩ := hmeta5
                refine ⟨m, ?_, ht, he⟩
                rw [fixExecCount_frame _ (by decide), fixOutputsNormalize_frame hn (by decide)]
                exact hjm
              · intro hct
                rw [pyGet_congr (fixExecCount_frame _ (by decide)),
                  pyGet_congr (fixOutputsNormalize_frame hn (by decide))] at hct
                exact ObjOrAbsent_mono (fixExecCount_frame _ (by decide))
                  (ObjOrAbsent_mono (fixOutputsNormalize_frame hn (by decide)) (hatt5 hct))
              · intro _
                rw [if_neg (by decide : ¬(false = true))]
                constructor
                · intro htr
                  rw [pyGet_congr (fixExecCount_frame _ (show ("outputs" : String)
                    ≠ "execution_count" by decide))] at htr ⊢
                  exact fixOutputsNormalize_after hn htr
                · exact fixExecCount_after _
      · rw [if_neg hcode] at h
        injection h with h
        injection h with h1 h2
        refine ⟨_, h1.symm, hid5, hsrc5, hmeta5, hatt5, ?_⟩
        intro hct
        exact absurd ((pyEq_str_right _ _).mpr hct) hcode

theorem sanitizeCell_fix {ids : Nat → String} {strip : Bool} {g : Nat} {co : JObj}
    (h : CellNorm strip co) : sanitizeCell ids strip g (.obj co) = some (.obj co, false, g) := by
  obtain ⟨hid, hsrc, ⟨m, hjm, ht, he⟩, hatt, hcode5⟩ := h
  unfold sanitizeCell
  dsimp only
  rw [fixId_fix hid]
  dsimp only
  rw [coerceStrKey_fix hsrc]
  dsimp only
  rw [fixCellMetadata_fix hjm ht he]
  dsimp only
  rw [fixAttachments_fix hatt]
  dsimp only
  by_cases hcode : pyEq (pyGet co "cell_type") (.str "code") = true
  · rw [if_pos hcode]
    have h5 := hcode5 ((pyEq_str_right _ _).mp hcode)
    cases strip with
    | true =>
        rw [if_pos rfl]
        rw [if_pos rfl] at h5
        rw [stripOutputs_fix h5.1 h5.2]
        rfl
    | false =>
        rw [if_neg (by decide : ¬(false = true))]
        rw [if_neg (by decide : ¬(false = true))] at h5
        rw [fixOutputsNormalize_fix h5.1]
        dsimp only
        rw [fixExecCount_fix h5.2]
        rfl
  · rw [if_neg hcode]
    rfl

theorem fixNbformat_frame (m : JObj) {k : String} (h : k ≠ "nbformat") :
    jget (fixNbformat m).1 k = jget m k := by
  rcases fixNbformat_spec m with ⟨_, he⟩ | ⟨_, he⟩
  · rw [he]
  · rw [he]
    exact jget_jset_ne _ (Ne.symm h) _

theorem fixNbformat_false {m : JObj} (h : (fixNbformat m).2 = false) : (fixNbformat m).1 = m := by
  rcases fixNbformat_spec m with ⟨_, he⟩ | ⟨_, he⟩
  · rw [he]
  · rw [he] at h
    simp at h

theorem fixNbformat_ne {m : JObj} (h : (fixNbformat m).2 = true) :
    jget (fixNbformat m).1 "nbformat" ≠ jget m "nbformat" := by
  rcases fixNbformat_spec m with ⟨_, he⟩ | ⟨hne, he⟩
  · rw [he] at h
    simp at h
  · rw [he]
    rw [jget_jset_self]
    cases hj : jget m "nbformat" with
    | none => simp
    | some w =>
        intro hcon
        injection hcon with hcon
        exact hne (by rw [pyGet_eq_of_jget hj, ← hcon])

theorem fixNbformat_after (m : JObj) : pyGet (fixNbformat m).1 "nbformat" = .int 4 := by
  rcases fixNbformat_spec m with ⟨hp, he⟩ | ⟨_, he⟩
  · rw [he]
    exact hp
  · rw [he]
    exact pyGet_jset_self _ _ _

theorem fixNbformatMinor_frame (m : JObj) {k : String} (h : k ≠ "nbformat_minor") :
    jget (fixNbformatMinor m).1 k = jget m k := by
  rcases fixNbformatMinor_spec m with ⟨_, he⟩ | ⟨_, he⟩
  · rw [he]
  · rw [he]
    exact jget_jset_ne _ (Ne.symm h) _

theorem fixNbformatMinor_false {m : JObj} (h : (fixNbformatMinor m).2 = false) :
    (fixNbformatMinor m).1 = m := by
  rcases fixNbformatMinor_spec m with ⟨_, he⟩ | ⟨_, he⟩
  · rw [he]
  · rw [he] at h
    simp at h

theorem fixNbformatMinor_ne {m : JObj} (h : (fixNbformatMinor m).2 = true) :
    jget (fixNbformatMinor m).1 "nbformat_minor" ≠ jget m "nbformat_minor" := by
  rcases fixNbformatMinor_spec m with ⟨_, he⟩ | ⟨hni, he⟩
  · rw [he] at h
    simp at h
  · rw [he]
    rw [jget_jset_self]
    cases hj : jget m "nbformat_minor" with
    | none => simp
    | some w =>
        intro hcon
        injection hcon with hcon
        have := pyGet_eq_of_jget hj
        rw [← hcon] at this
        rw [this] at hni
        simp [isPyInt] at hni

theorem fixNbformatMinor_after (m : JObj) :
    isPyInt (pyGet (fixNbformatMinor m).1 "nbformat_minor") = true := by
  rcases fixNbformatMinor_spec m with ⟨hp, he⟩ | ⟨_, he⟩
  · rw [he]
    exact hp
  · rw [he]
    rw [pyGet_jset_self]
    rfl

theorem sanitizeCells_false {ids : Nat → String} :
    ∀ (cs : List J) (g : Nat) (rs : List J) (g1 : Nat),
      sanitizeCells ids false g cs = some (rs, false, g1) → rs = cs
  | [], g, rs, g1 => by
      intro h
      unfold sanitizeCells at h
      injection h with h
      injection h with h1 h2
      exact h1.symm
  | c :: cs, g, rs, g1 => by
      intro h
      unfold sanitizeCells at h
      cases hc : sanitizeCell ids false g c with
      | none => rw [hc] at h; exact Option.noConfusion h
      | some r =>
          obtain ⟨rv, rb, rg⟩ := r
          rw [hc] at h
          dsimp only at h
          cases hcs : sanitizeCells ids false rg cs with
          | none => rw [hcs] at h; exact Option.noConfusion h
          | some rr =>
              obtain ⟨rrv, rrb, rrg⟩ := rr
              rw [hcs] at h
              injection h with h
              injection h with h1 h2
              injection h2 with h2 h3
              rcases Bool.or_eq_false_iff.mp h2 with ⟨hrb, hrrb⟩
              have hrb2 : rb = false := hrb
              subst hrb2
              have hrrb2 : rrb = false := hrrb
              subst hrrb2
              obtain ⟨c1, rfl⟩ := sanitizeCell_input hc
              obtain ⟨hv, _⟩ := sanitizeCell_false hc
              have hrec := sanitizeCells_false cs rg rrv rrg hcs
              rw [← h1, hv, hrec]

theorem sanitizeCells_true {ids : Nat → String} {strip : Bool} :
    ∀ (cs : List J) (g : Nat) (rs : List J) (g1 : Nat),
      sanitizeCells ids strip g cs = some (rs, true, g1) → (∀ n, ids n ≠ "") → rs ≠ cs
  | [], g, rs, g1 => by
      intro h _
      unfold sanitizeCells at h
      injection h with h
      injection h with h1 h2
      injection h2 with h2 h3
      exact absurd h2.symm (by simp)
  | c :: cs, g, rs, g1 => by
      intro h hids
      unfold sanitizeCells at h
      cases hc : sanitizeCell ids strip g c with
      | none => rw [hc] at h; exact Option.noConfusion h
      | some r =>
          obtain ⟨rv, rb, rg⟩ := r
          rw [hc] at h
          dsimp only at h
          cases hcs : sanitizeCells ids strip rg cs with
          | none => rw [hcs] at h; exact Option.noConfusion h
          | some rr =>
              obtain ⟨rrv, rrb, rrg⟩ := rr
              rw [hcs] at h
              injection h with h
              injection h with h1 h2
              injection h2 with h2 h3
              rw [← h1]
              obtain ⟨c1, rfl⟩ := sanitizeCell_input hc
              intro hcon
              injection hcon with hh htl
              rcases Bool.or_eq_true_iff.mp h2 with hrb | hrrb
              · have hrb2 : rb = true := hrb
                subst hrb2
                exact sanitizeCell_true hc hids hh
              · have hrrb2 : rrb = true := hrrb
                subst hrrb2
                exact sanitizeCells_true cs rg rrv rrg hcs hids htl

theorem sanitizeCells_after {ids : Nat → String} {strip : Bool} :
    ∀ (cs : List J) (g : Nat) (rs : List J) (ch : Bool) (g1 : Nat),
      sanitizeCells ids strip g cs = some (rs, ch, g1) → (∀ n, ids n ≠ "") →
        ∀ r ∈ rs, ∃ co, r = .obj co ∧ CellNorm strip co
  | [], g, rs, ch, g1 => by
      intro h _ r hr
      unfold sanitizeCells at h
      injection h with h
      injection h with h1 h2
      rw [← h1] at hr
      exact absurd hr (List.not_mem_nil r)
  | c :: cs, g, rs, ch, g1 => by
      intro h hids r hr
      unfold sanitizeCells at h
      cases hc : sanitizeCell ids strip g c with
      | none => rw [hc] at h; exact Option.noConfusion h
      | some r0 =>
          obtain ⟨rv, rb, rg⟩ := r0
          rw [hc] at h
          dsimp only at h
          cases hcs : sanitizeCells ids strip rg cs with
          | none => rw [hcs] at h; exact Option.noConfusion h
          | some rr =>
              obtain ⟨rrv, rrb, rrg⟩ := rr
              rw [hcs] at h
              injection h with h
              injection h with h1 h2
              rw [← h1] at hr
              rcases List.mem_cons.mp hr with rfl | hr2
              · obtain ⟨c1, rfl⟩ := sanitizeCell_input hc
                exact sanitizeCell_after hc hids
              · exact sanitizeCells_after cs rg rrv rrb rrg hcs hids r hr2

theorem sanitizeCells_fix {ids : Nat → String} {strip : Bool} :
    ∀ (cs : List J) (g : Nat), (∀ c ∈ cs, ∃ co, c = .obj co ∧ CellNorm strip co) →
      sanitizeCells ids strip g cs = some (cs, false, g)
  | [], g => by
      intro _
      rfl
  | c :: cs, g => by
      intro h
      obtain ⟨co, rfl, hn⟩ := h c (by simp)
      unfold sanitizeCells
      rw [sanitizeCell_fix hn]
      dsimp only
      rw [sanitizeCells_fix cs g (fun c hc => h c (by simp [hc]))]
      rfl

theorem sanitize_eq_of_false {ids : Nat → String} {raw : JObj} {r : J}
    (h : sanitize_notebook ids false (.obj raw) = some (r, false)) : r = .obj raw := by
  unfold sanitize_notebook at h
  dsimp only at h
  cases hcells : sanitizeCells ids false 0
      (cellsBase (fixMetadata (fixNbformatMinor (fixNbformat raw).1).1).1).1 with
  | none => rw [hcells] at h; exact Option.noConfusion h
  | some r5 =>
      obtain ⟨cs5, ch5, g5⟩ := r5
      rw [hcells] at h
      dsimp only at h
      injection h with h
      injection h with h1 h2
      rcases Bool.or_eq_false_iff.mp h2 with ⟨h1234, hch5⟩
      rcases Bool.or_eq_false_iff.mp h1234 with ⟨h123, hr4⟩
      rcases Bool.or_eq_false_iff.mp h123 with ⟨h12, hr3⟩
      rcases Bool.or_eq_false_iff.mp h12 with ⟨hr1, hr2⟩
      have hch5b : ch5 = false := hch5
      subst hch5b
      have e1 := fixNbformat_false hr1
      rw [e1] at hr2 hr3 hr4 hcells h1
      have e2 := fixNbformatMinor_false hr2
      rw [e2] at hr3 hr4 hcells h1
      have e3 := fixMetadata_false hr3
      rw [e3] at hr4 hcells h1
      rcases cellsBase_spec raw with ⟨cs, hpg, he⟩ | ⟨_, he⟩
      · rw [he] at hcells
        dsimp only at hcells
        have hcs5 := sanitizeCells_false _ _ _ _ hcells
        subst hcs5
        rw [jset_eq_of_get (jget_of_pyGet hpg (by simp))] at h1
        exact h1.symm
      · rw [he] at hr4
        simp at hr4

theorem sanitize_ne_of_true {ids : Nat → String} {strip : Bool} {raw : JObj} {r : J}
    (h : sanitize_notebook ids strip (.obj raw) = some (r, true)) (hids : ∀ n, ids n ≠ "") :
    r ≠ .obj raw := by
  unfold sanitize_notebook at h
  dsimp only at h
  cases hcells : sanitizeCells ids strip 0
      (cellsBase (fixMetadata (fixNbformatMinor (fixNbformat raw).1).1).1).1 with
  | none => rw [hcells] at h; exact Option.noConfusion h
  | some r5 =>
      obtain ⟨cs5, ch5, g5⟩ := r5
      rw [hcells] at h
      dsimp only at h
      injection h with h
      injection h with h1 h2
      rw [← h1]
      intro hcon
      injection hcon with hcon
      have hh := congrArg (fun m => jget m "cells") hcon
      dsimp only at hh
      rcases Bool.or_eq_true_iff.mp h2 with h1234 | hch5
      · rcases Bool.or_eq_true_iff.mp h1234 with h123 | hr4
        · rcases Bool.or_eq_true_iff.mp h123 with h12 | hr3
          · rcases Bool.or_eq_true_iff.mp h12 with hr1 | hr2
            · have hk := congrArg (fun m => jget m "nbformat") hcon
              dsimp only at hk
              rw [jget_jset_ne _ (by decide), fixMetadata_frame _ (by decide),
                fixNbformatMinor_frame _ (by decide)] at hk
              exact fixNbformat_ne hr1 hk
            · have hk := congrArg (fun m => jget m "nbformat_minor") hcon
              dsimp only at hk
              rw [jget_jset_ne _ (by decide), fixMetadata_frame _ (by decide)] at hk
              rw [show jget raw "nbformat_minor" = jget (fixNbformat raw).1 "nbformat_minor"
                from (fixNbformat_frame raw (by decide)).symm] at hk
              exact fixNbformatMinor_ne hr2 hk
          · have hk := congrArg (fun m => jget m "metadata") hcon
            dsimp only at hk
            rw [jget_jset_ne _ (by decide)] at hk
            rw [show jget raw "metadata"
                = jget (fixNbformatMinor (fixNbformat raw).1).1 "metadata" by
              rw [fixNbformatMinor_frame _ (by decide), fixNbformat_frame _ (by decide)]] at hk
            exact fixMetadata_true hr3 hk
        · have hk := congrArg (fun m => jget m "cells") hcon
          dsimp only at hk
          rw [jget_jset_self] at hk
          rw [show jget raw "cells"
              = jget (fixMetadata (fixNbformatMinor (fixNbformat raw).1).1).1 "cells" by
            rw [fixMetadata_frame _ (by decide), fixNbformatMinor_frame _ (by decide),
              fixNbformat_frame _ (by decide)]] at hk
          rcases cellsBase_spec (fixMetadata (fixNbformatMinor (fixNbformat raw).1).1).1 with
            ⟨cs, hpg, he⟩ | ⟨hne, he⟩
          · rw [he] at hr4
            simp at hr4
          · cases hj : jget (fixMetadata (fixNbformatMinor (fixNbformat raw).1).1).1 "cells" with
            | none => rw [hj] at hk; exact Option.noConfusion hk
            | some w =>
                rw [hj] at hk
                injection hk with hk
                exact hne cs5 (by rw [pyGet_eq_of_jget hj, ← hk])
      · have hk := congrArg (fun m => jget m "cells") hcon
        dsimp only at hk
        rw [jget_jset_self] at hk
        rw [show jget raw "cells"
            = jget (fixMetadata (fixNbformatMinor (fixNbformat raw).1).1).1 "cells" by
          rw [fixMetadata_frame _ (by decide), fixNbformatMinor_frame _ (by decide),
            fixNbformat_frame _ (by decide)]] at hk
        rcases cellsBase_spec (fixMetadata (fixNbformatMinor (fixNbformat raw).1).1).1 with
          ⟨cs, hpg, he⟩ | ⟨hne, he⟩
        · rw [he] at hcells
          dsimp only at hcells
          rw [jget_of_pyGet hpg (by simp)] at hk
          injection hk with hk
          injection hk with hk
          have hch5b : ch5 = true := hch5
          subst hch5b
          exact sanitizeCells_true _ _ _ _ hcells hids hk
        · cases hj : jget (fixMetadata (fixNbformatMinor (fixNbformat raw).1).1).1 "cells" with
          | none => rw [hj] at hk; exact Option.noConfusion hk
          | some w =>
              rw [hj] at hk
              injection hk with hk
              exact hne cs5 (by rw [pyGet_eq_of_jget hj, ← hk])

theorem sanitize_after {ids : Nat → String} {strip : Bool} {raw : JObj} {r : J} {ch : Bool}
    (h : sanitize_notebook ids strip (.obj raw) = some (r, ch)) (hids : ∀ n, ids n ≠ "") :
    ∃ r0, r = .obj r0 ∧ DocNorm strip r0 := by
  unfold sanitize_notebook at h
  dsimp only at h
  cases hcells : sanitizeCells ids strip 0
      (cellsBase (fixMetadata (fixNbformatMinor (fixNbformat raw).1).1).1).1 with
  | none => rw [hcells] at h; exact Option.noConfusion h
  | some r5 =>
      obtain ⟨cs5, ch5, g5⟩ := r5
      rw [hcells] at h
      dsimp only at h
      injection h with h
      injection h with h1 h2
      refine ⟨_, h1.symm, ?_, ?_, ?_, ?_⟩
      · rw [pyGet_congr (jget_jset_ne _ (by decide) _),
          pyGet_congr (fixMetadata_frame _ (by decide)),
          pyGet_congr (fixNbformatMinor_frame _ (by decide))]
        exact fixNbformat_after raw
      · rw [pyGet_congr (jget_jset_ne _ (by decide) _),
          pyGet_congr (fixMetadata_frame _ (by decide))]
        exact fixNbformatMinor_after _
      · obtain ⟨md, hpg, hli, hks⟩ := fixMetadata_after (fixNbformatMinor (fixNbformat raw).1).1
        exact ⟨md, by rw [pyGet_congr (jget_jset_ne _ (by decide) _)]; exact hpg, hli, hks⟩
      · refine ⟨cs5, ?_, ?_⟩
        · rw [pyGet_jset_self]
        · exact sanitizeCells_after _ _ _ _ _ hcells hids

theorem sanitize_fix {ids : Nat → String} {strip : Bool} {raw : JObj} (h : DocNorm strip raw) :
    sanitize_notebook ids strip (.obj raw) = some (.obj raw, false) := by
  obtain ⟨hnb, hminor, ⟨md, hmd, hli, hks⟩, ⟨cs, hcs, hnorm⟩⟩ := h
  unfold sanitize_notebook
  dsimp only
  rw [fixNbformat_fix hnb]
  dsimp only
  rw [fixNbformatMinor_fix hminor]
  dsimp only
  rw [fixMetadata_fix hmd hli hks]
  dsimp only
  rw [cellsBase_fix hcs]
  dsimp only
  rw [sanitizeCells_fix _ 0 hnorm]
  dsimp only
  rw [jset_eq_of_get (jget_of_pyGet hcs (by simp))]
  rfl

theorem isNull_eq_null {v : J} (h : isNull v = true) : v = .null := by
  cases v
  case null => rfl
  all_goals simp [isNull] at h

theorem ne_null_of_isNull_false {v : J} (h : isNull v = false) : v ≠ .null := by
  intro hv
  rw [hv] at h
  simp [isNull] at h

theorem isStrJ_ex {v : J} (h : isStrJ v = true) : ∃ s, v = .str s := by
  cases v
  case str s => exact ⟨s, rfl⟩
  all_goals simp [isStrJ] at h

theorem liNameOk_name {li : JObj} (h : liNameOk li = true) :
    ∃ s, jget li "name" = some (.str s) := by
  unfold liNameOk at h
  split at h
  next s heq => exact ⟨s, heq⟩
  next => exact absurd h (by simp)

theorem dataEntry_good_shape {kv : String × J} (h : dataEntryBad kv = false) :
    (textualKey kv.1 = true → ∃ s, kv.2 = .str s) ∧
    (textualKey kv.1 = false → (isObjJ kv.2 || isArrJ kv.2 || isStrJ kv.2) = true) := by
  unfold dataEntryBad at h
  by_cases ht : textualKey kv.1 = true
  · rw [if_pos ht] at h
    refine ⟨fun _ => isStrJ_ex ?_, fun hf => absurd ht (by simp [hf])⟩
    cases hx : isStrJ kv.2
    · rw [hx] at h; simp at h
    · rfl
  · rw [if_neg ht] at h
    refine ⟨fun hcon => absurd hcon ht, fun _ => ?_⟩
    cases hx : (isObjJ kv.2 || isArrJ kv.2 || isStrJ kv.2)
    · rw [hx] at h; simp at h
    · rfl

theorem to_sList_foldr (xs : List J) : to_sList xs = (xs.map to_s).foldr (fun a b => a ++ b) "" := by
  induction xs with
  | nil => rfl
  | cons x xs ih => simp only [to_sList, List.map_cons, List.foldr_cons, ih]

/-- A concrete stream of generated cell ids, standing in for the
`uuid.uuid4().hex[:8]` tokens of line 62 (every token is non-empty). -/
def demoIds : Nat → String := fun _ => "deadbeef"

/-- A fully normalized top-level `metadata` value. -/
def stdMeta : JObj :=
  [("language_info", J.obj [("name", J.str "python")]),
   ("kernelspec", J.obj [("name", J.str "python3"), ("display_name", J.str "Python 3")])]

/-- What sanitizing the empty document `\x7b\x7d` produces. -/
def demoDoc1 : JObj :=
  [("nbformat", J.int 4), ("nbformat_minor", J.int 5),
   ("metadata", J.obj stdMeta), ("cells", J.arr [])]

/-- A fully normalized code cell that lacks the `outputs` key. -/
def demoStripCell : JObj :=
  [("id", J.str "aaaaaaaa"), ("cell_type", J.str "code"), ("metadata", J.obj [])]

/-- A fully normalized document whose one code cell lacks `outputs`. -/
def demoStripDoc : JObj :=
  [("nbformat", J.int 4), ("nbformat_minor", J.int 5),
   ("metadata", J.obj stdMeta), ("cells", J.arr [J.obj demoStripCell])]

/-- `demoStripCell` after strip mode: the `outputs` key was created. -/
def demoStripCellOut : JObj :=
  [("id", J.str "aaaaaaaa"), ("cell_type", J.str "code"), ("metadata", J.obj []),
   ("outputs", J.arr [])]

/-- `demoStripDoc` after strip mode. -/
def demoStripDocOut : JObj :=
  [("nbformat", J.int 4), ("nbformat_minor", J.int 5),
   ("metadata", J.obj stdMeta), ("cells", J.arr [J.obj demoStripCellOut])]

/-- The spec scenario input: a cell with integer `id` 0 and list `source`. -/
def c3in : JObj :=
  [("cells", J.arr [J.obj [("id", J.int 0),
     ("source", J.arr [J.str "a", J.str "b"]), ("metadata", J.obj [])]])]

/-- The sanitized form of `c3in` under `demoIds`. -/
def c3out : JObj :=
  [("cells", J.arr [J.obj [("id", J.str "deadbeef"),
     ("source", J.str "ab"), ("metadata", J.obj [])]]),
   ("nbformat", J.int 4), ("nbformat_minor", J.int 5), ("metadata", J.obj stdMeta)]

/-- An otherwise normalized document whose `nbformat_minor` is the boolean
`true` — `isinstance(True, int)` holds in Python, so it is kept. -/
def c3bad : JObj :=
  [("nbformat", J.int 4), ("nbformat_minor", J.bool true),
   ("metadata", J.obj stdMeta), ("cells", J.arr [])]

/-- A kernelspec whose `name` is the integer 5 — not `None`, so kept. -/
def c6ks : JObj := [("name", J.int 5), ("display_name", J.str "Python 3")]

/-- Metadata embedding `c6ks`. -/
def c6md : JObj :=
  [("language_info", J.obj [("name", J.str "python")]), ("kernelspec", J.obj c6ks)]

/-- An otherwise normalized document carrying `c6md`. -/
def c6bad : JObj :=
  [("nbformat", J.int 4), ("nbformat_minor", J.int 5),
   ("metadata", J.obj c6md), ("cells", J.arr [])]

/-- The spec scenario output entry: `data: \x7b"text/plain": 42\x7d`. -/
def c7out0 : JObj :=
  [("output_type", J.str "execute_result"), ("data", J.obj [("text/plain", J.int 42)])]

/-- `c7out0` after normalization: the 42 was coerced to `"42"`. -/
def c7out1 : JObj :=
  [("output_type", J.str "execute_result"), ("data", J.obj [("text/plain", J.str "42")])]

/-- A document whose one code cell carries the output `c7out0`. -/
def c7doc : JObj :=
  [("nbformat", J.int 4), ("nbformat_minor", J.int 5), ("metadata", J.obj stdMeta),
   ("cells", J.arr [J.obj [("id", J.str "aaaaaaaa"), ("cell_type", J.str "code"),
     ("metadata", J.obj []), ("outputs", J.arr [J.obj c7out0])]])]

/-- `c7doc` after normalize mode. -/
def c7docOut : JObj :=
  [("nbformat", J.int 4), ("nbformat_minor", J.int 5), ("metadata", J.obj stdMeta),
   ("cells", J.arr [J.obj [("id", J.str "aaaaaaaa"), ("cell_type", J.str "code"),
     ("metadata", J.obj []), ("outputs", J.arr [J.obj c7out1])]])]

/-- A `tags` list mixing a string, a null and an integer. -/
def demoTags : List J := [J.str "keep", J.null, J.int 7]

/-- A cell metadata dict carrying `demoTags`. -/
def demoTagsM : JObj := [("tags", J.arr demoTags)]

/-- A normalized document with one code cell holding a stream output and an
integer execution count, for exercising strip mode. -/
def demoC5In : JObj :=
  [("nbformat", J.int 4), ("nbformat_minor", J.int 5), ("metadata", J.obj stdMeta),
   ("cells", J.arr [J.obj [("id", J.str "aaaaaaaa"), ("cell_type", J.str "code"),
     ("metadata", J.obj []),
     ("outputs", J.arr [J.obj [("output_type", J.str "stream")]]),
     ("execution_count", J.int 3)]])]

/-- `demoC5In` after strip mode. -/
def demoC5Out : JObj :=
  [("nbformat", J.int 4), ("nbformat_minor", J.int 5), ("metadata", J.obj stdMeta),
   ("cells", J.arr [J.obj [("id", J.str "aaaaaaaa"), ("cell_type", J.str "code"),
     ("metadata", J.obj []), ("outputs", J.arr []), ("execution_count", J.null)]])]

theorem demoIds_ne : ∀ n, demoIds n ≠ "" := fun _ => (by decide : ("deadbeef" : String) ≠ "")

/-- C1: the spec says `changed` is true iff some rule mutated the document,
in both modes.  That is proved here for normalize mode (`changed` is true
iff the returned tree differs from the input tree); in strip mode only the
forward direction holds, because line 94 writes `c["outputs"] = []` without
flagging when the old value was falsy yet not `[]` (for instance absent) —
see the counterexample theorem. -/
theorem C1_changed_iff_mutation {ids : Nat → String} {raw : JObj} {r : J} {ch : Bool}
    (h : sanitize_notebook ids false (.obj raw) = some (r, ch))
    (hids : ∀ n, ids n ≠ "") :
    ch = true ↔ r ≠ .obj raw := by
  constructor
  · intro hch
    subst hch
    exact sanitize_ne_of_true h hids
  · intro hne
    cases ch with
    | true => rfl
    | false => exact absurd (sanitize_eq_of_false h) hne

/-- C1 witness: normalizing the empty document mutates it and reports
`changed = true`, matching the iff at a concrete input. -/
theorem C1_witness :
    sanitize_notebook demoIds false (.obj []) = some (.obj demoDoc1, true) ∧
    (∀ n, demoIds n ≠ "") ∧
    (true = true ↔ J.obj demoDoc1 ≠ .obj ([] : JObj)) :=
  ⟨by decide, demoIds_ne,
   C1_changed_iff_mutation
     (show sanitize_notebook demoIds false (.obj []) = some (.obj demoDoc1, true) from by decide)
     demoIds_ne⟩

/-- C1 counterexample: in strip mode a code cell with no `outputs` key gets
the key created — the tree is mutated — while `changed` stays false. -/
theorem C1_counterexample :
    sanitize_notebook demoIds true (.obj demoStripDoc)
      = some (.obj demoStripDocOut, false) ∧
    J.obj demoStripDocOut ≠ .obj demoStripDoc := by
  decide

/-- C2: FALSIFIED — a cell mapping with no `metadata` key crashes the pass:
the guard at line 69 reads `c.get("metadata", \x7b\x7d)` and accepts the
default, but line 73 then evaluates `c["metadata"]`, raising `KeyError`.
In the embedding that Python error is `none`, reached in both modes. -/
theorem C2_missing_metadata_crash :
    ∀ strip : Bool,
      sanitize_notebook demoIds strip (.obj [("cells", J.arr [J.obj []])]) = none := by
  decide

/-- C3 (amended): after a successful pass, `nbformat` equals 4,
`nbformat_minor` passes the Python `isinstance(_, int)` test — which also
accepts booleans, so the claimed "is an integer" is weakened to `isPyInt`
(see the counterexample) — every cell has a non-empty string id, and a
present `source` is a string. -/
theorem C3_post_shape {ids : Nat → String} {strip : Bool} {raw : JObj} {r : J} {ch : Bool}
    (h : sanitize_notebook ids strip (.obj raw) = some (r, ch))
    (hids : ∀ n, ids n ≠ "") :
    ∃ r0, r = .obj r0 ∧
      pyGet r0 "nbformat" = .int 4 ∧
      isPyInt (pyGet r0 "nbformat_minor") = true ∧
      ∃ cs, pyGet r0 "cells" = .arr cs ∧
        ∀ c ∈ cs, ∃ co, c = .obj co ∧
          idOk (pyGet co "id") = true ∧ StrOrAbsent co "source" := by
  obtain ⟨r0, hr, h1, h2, _, cs, hcs, hall⟩ := sanitize_after h hids
  refine ⟨r0, hr, h1, h2, cs, hcs, fun c hc => ?_⟩
  obtain ⟨co, hco, hn⟩ := hall c hc
  exact ⟨co, hco, hn.1, hn.2.1⟩

/-- C3 witness: the spec scenario — a cell entering with integer id 0 and
`source: ["a", "b"]` leaves with the fresh non-empty id token and
`source = "ab"`; the shape theorem is applied at that same input. -/
theorem C3_witness :
    sanitize_notebook demoIds false (.obj c3in) = some (.obj c3out, true) ∧
    (∀ n, demoIds n ≠ "") ∧
    pyGet c3out "cells"
      = .arr [J.obj [("id", J.str "deadbeef"), ("source", J.str "ab"),
                     ("metadata", J.obj [])]] ∧
    (∃ r0, J.obj c3out = J.obj r0 ∧
      pyGet r0 "nbformat" = .int 4 ∧
      isPyInt (pyGet r0 "nbformat_minor") = true ∧
      ∃ cs, pyGet r0 "cells" = .arr cs ∧
        ∀ c ∈ cs, ∃ co, c = .obj co ∧
          idOk (pyGet co "id") = true ∧ StrOrAbsent co "source") :=
  ⟨by decide, demoIds_ne, by decide,
   C3_post_shape
     (show sanitize_notebook demoIds false (.obj c3in) = some (.obj c3out, true) from by decide)
     demoIds_ne⟩

/-- C3 counterexample: a document whose `nbformat_minor` is the boolean
`true` passes through unchanged — the field is not an integer afterwards. -/
theorem C3_counterexample :
    sanitize_notebook demoIds false (.obj c3bad) = some (.obj c3bad, false) ∧
    pyGet c3bad "nbformat_minor" = .bool true ∧
    (∀ n : Int, pyGet c3bad "nbformat_minor" ≠ .int n) :=
  ⟨by decide, by decide, fun n h => by
    rw [show pyGet c3bad "nbformat_minor" = .bool true from by decide] at h
    exact J.noConfusion h⟩

/-- C4: idempotence — a second pass in the same mode over the output of a
successful first pass returns the identical tree with `changed = false`
(for any id stream on the second pass, since no fresh ids are needed). -/
theorem C4_idempotent {ids ids2 : Nat → String} {strip : Bool} {raw : JObj} {r : J} {ch : Bool}
    (h : sanitize_notebook ids strip (.obj raw) = some (r, ch))
    (hids : ∀ n, ids n ≠ "") :
    sanitize_notebook ids2 strip r = some (r, false) := by
  obtain ⟨r0, hr, hn⟩ := sanitize_after h hids
  subst hr
  exact sanitize_fix hn

/-- C4 witness: re-sanitizing the normalized empty document is a no-op. -/
theorem C4_witness :
    sanitize_notebook demoIds false (.obj []) = some (.obj demoDoc1, true) ∧
    (∀ n, demoIds n ≠ "") ∧
    sanitize_notebook demoIds false (.obj demoDoc1) = some (.obj demoDoc1, false) :=
  ⟨by decide, demoIds_ne,
   C4_idempotent
     (show sanitize_notebook demoIds false (.obj []) = some (.obj demoDoc1, true) from by decide)
     demoIds_ne⟩

/-- C5: in strip mode every code cell of a successful pass ends with
`outputs` equal to the empty list and a null `execution_count`, whatever the
prior content; and the cell-level strip step flags `changed` whenever
`outputs` held a non-empty list or `execution_count` was non-null. -/
theorem C5_strip_clears_outputs {ids : Nat → String} {raw : JObj} {r : J} {ch : Bool}
    (h : sanitize_notebook ids true (.obj raw) = some (r, ch))
    (hids : ∀ n, ids n ≠ "") :
    (∃ r0, r = .obj r0 ∧ ∃ cs, pyGet r0 "cells" = .arr cs ∧
      ∀ c ∈ cs, ∃ co, c = .obj co ∧
        (pyGet co "cell_type" = .str "code" →
          jget co "outputs" = some (.arr []) ∧ pyGet co "execution_count" = .null)) ∧
    (∀ c : JObj,
      ((∃ l, pyGet c "outputs" = .arr l ∧ l ≠ []) ∨ pyGet c "execution_count" ≠ .null) →
      (stripOutputs c).2 = true) := by
  constructor
  · obtain ⟨r0, hr, _, _, _, cs, hcs, hall⟩ := sanitize_after h hids
    refine ⟨r0, hr, cs, hcs, fun c hc => ?_⟩
    obtain ⟨co, hco, hn⟩ := hall c hc
    refine ⟨co, hco, fun hcode => ?_⟩
    have h5 : jget co "outputs" = some (.arr []) ∧
        isNull (pyGet co "execution_count") = true := hn.2.2.2.2 hcode
    exact ⟨h5.1, isNull_eq_null h5.2⟩
  · exact fun c hc => stripOutputs_changed hc

/-- C5 witness: a code cell holding one stream output and execution count 3
comes out of strip mode with empty outputs and a null count. -/
theorem C5_witness :
    sanitize_notebook demoIds true (.obj demoC5In) = some (.obj demoC5Out, true) ∧
    (∀ n, demoIds n ≠ "") ∧
    ((∃ r0, J.obj demoC5Out = J.obj r0 ∧ ∃ cs, pyGet r0 "cells" = .arr cs ∧
       ∀ c ∈ cs, ∃ co, c = .obj co ∧
         (pyGet co "cell_type" = .str "code" →
           jget co "outputs" = some (.arr []) ∧ pyGet co "execution_count" = .null)) ∧
     (∀ c : JObj,
       ((∃ l, pyGet c "outputs" = .arr l ∧ l ≠ []) ∨ pyGet c "execution_count" ≠ .null) →
       (stripOutputs c).2 = true)) :=
  ⟨by decide, demoIds_ne,
   C5_strip_clears_outputs
     (show sanitize_notebook demoIds true (.obj demoC5In) = some (.obj demoC5Out, true)
       from by decide)
     demoIds_ne⟩

/-- C6 (amended): after a successful pass the top-level metadata is a
mapping holding a `language_info` mapping whose `name` is a string and a
`kernelspec` mapping whose `name` and `display_name` are present and
non-null.  Lines 49-50 only repair a value that reads as `None`, so a
non-null non-string `kernelspec` value is kept (see the counterexample) —
the claimed "name and display_name are strings" is weakened to non-null. -/
theorem C6_metadata_shape {ids : Nat → String} {strip : Bool} {raw : JObj} {r : J} {ch : Bool}
    (h : sanitize_notebook ids strip (.obj raw) = some (r, ch))
    (hids : ∀ n, ids n ≠ "") :
    ∃ r0, r = .obj r0 ∧ ∃ md, pyGet r0 "metadata" = .obj md ∧
      (∃ li, jget md "language_info" = some (.obj li) ∧
        ∃ s, jget li "name" = some (.str s)) ∧
      (∃ ks, jget md "kernelspec" = some (.obj ks) ∧
        pyGet ks "name" ≠ .null ∧ pyGet ks "display_name" ≠ .null) := by
  obtain ⟨r0, hr, _, _, ⟨md, hmd, hli, hks⟩, _⟩ := sanitize_after h hids
  obtain ⟨li, hli1, hli2⟩ := hli
  obtain ⟨ks, hks1, hksn, hksd⟩ := hks
  exact ⟨r0, hr, md, hmd, ⟨li, hli1, liNameOk_name hli2⟩,
    ⟨ks, hks1, ne_null_of_isNull_false hksn, ne_null_of_isNull_false hksd⟩⟩

/-- C6 witness: sanitizing the empty document populates the metadata with
the default language info and kernelspec. -/
theorem C6_witness :
    sanitize_notebook demoIds false (.obj []) = some (.obj demoDoc1, true) ∧
    (∀ n, demoIds n ≠ "") ∧
    (∃ r0, J.obj demoDoc1 = J.obj r0 ∧ ∃ md, pyGet r0 "metadata" = .obj md ∧
      (∃ li, jget md "language_info" = some (.obj li) ∧
        ∃ s, jget li "name" = some (.str s)) ∧
      (∃ ks, jget md "kernelspec" = some (.obj ks) ∧
        pyGet ks "name" ≠ .null ∧ pyGet ks "display_name" ≠ .null)) :=
  ⟨by decide, demoIds_ne,
   C6_metadata_shape
     (show sanitize_notebook demoIds false (.obj []) = some (.obj demoDoc1, true) from by decide)
     demoIds_ne⟩

/-- C6 counterexample: a kernelspec whose `name` is the integer 5 survives
the pass unchanged — the field is non-null but not a string. -/
theorem C6_counterexample :
    sanitize_notebook demoIds false (.obj c6bad) = some (.obj c6bad, false) ∧
    pyGet c6md "kernelspec" = .obj c6ks ∧
    jget c6ks "name" = some (.int 5) ∧
    (∀ s : String, (J.int 5) ≠ .str s) :=
  ⟨by decide, by decide, by decide, fun s h => J.noConfusion h⟩

/-- C7: after normalizing a `display_data`/`execute_result` output, every
entry of a (truthy) `data` dict whose key is a textual or image MIME type
holds a string, and every other entry holds a dict, list or string —
anything else was coerced.  The witness also runs the spec scenario
`data: \x7b"text/plain": 42\x7d` through the full pass. -/
theorem C7_data_entries {o0 : JObj} {r : J} {ch : Bool}
    (h : sanitizeOutput (.obj o0) = some (r, ch)) :
    ∃ ro, r = .obj ro ∧
      ((pyGet ro "output_type" = .str "display_data" ∨
        pyGet ro "output_type" = .str "execute_result") →
       truthy (pyGet ro "data") = true →
       ∃ dm, pyGet ro "data" = .obj dm ∧ ∀ kv ∈ dm,
         (textualKey kv.1 = true → ∃ s, kv.2 = .str s) ∧
         (textualKey kv.1 = false →
           (isObjJ kv.2 || isArrJ kv.2 || isStrJ kv.2) = true)) := by
  obtain ⟨ro, hr, hnorm⟩ := sanitizeOutput_after h
  refine ⟨ro, hr, fun hot htr => ?_⟩
  obtain ⟨dm, hdm, hall⟩ := hnorm.2.2.1 hot htr
  exact ⟨dm, hdm, fun kv hkv => dataEntry_good_shape (hall kv hkv)⟩

/-- C7 witness: the scenario output and the whole-document scenario —
`data["text/plain"]` equal to 42 becomes the string `"42"`. -/
theorem C7_witness :
    sanitizeOutput (.obj c7out0) = some (.obj c7out1, true) ∧
    jget c7out1 "data" = some (.obj [("text/plain", J.str "42")]) ∧
    sanitize_notebook demoIds false (.obj c7doc) = some (.obj c7docOut, true) ∧
    (∃ ro, J.obj c7out1 = J.obj ro ∧
      ((pyGet ro "output_type" = .str "display_data" ∨
        pyGet ro "output_type" = .str "execute_result") →
       truthy (pyGet ro "data") = true →
       ∃ dm, pyGet ro "data" = .obj dm ∧ ∀ kv ∈ dm,
         (textualKey kv.1 = true → ∃ s, kv.2 = .str s) ∧
         (textualKey kv.1 = false →
           (isObjJ kv.2 || isArrJ kv.2 || isStrJ kv.2) = true))) :=
  ⟨by decide, by decide, by decide,
   C7_data_entries
     (show sanitizeOutput (.obj c7out0) = some (.obj c7out1, true) from by decide)⟩

/-- C8: when `metadata.tags` holds a list, the pass leaves the field holding
exactly the null-free entries coerced to strings, in their original order;
the value is replaced — and flagged — precisely when that result differs
from the original list. -/
theorem C8_tags_normalized {m : JObj} {ts : List J} (h : pyGet m "tags" = .arr ts) :
    pyGet (fixTags m).1 "tags"
      = .arr ((ts.filter fun t => !isNull t).map fun t => J.str (to_s t)) ∧
    (∀ x ∈ (ts.filter fun t => !isNull t).map fun t => J.str (to_s t), ∃ s, x = J.str s) ∧
    ((fixTags m).2 = false ↔ (fixTags m).1 = m) ∧
    ((fixTags m).2 = true ↔
      J.arr ((ts.filter fun t => !isNull t).map fun t => J.str (to_s t)) ≠ .arr ts) := by
  rcases fixTags_spec m with ⟨he, hnorm⟩ | ⟨ts1, hpg, hne, he⟩
  · have hstr : ∀ t ∈ ts, ∃ s, t = J.str s := hnorm ts h
    have hcl := tags_clean hstr
    rw [he]
    dsimp only
    refine ⟨?_, newTags_strs ts, ⟨fun _ => rfl, fun _ => rfl⟩, ?_⟩
    · rw [hcl]
      exact h
    · constructor
      · intro hcon
        exact absurd hcon (by simp)
      · intro hcon
        exact absurd (by rw [hcl]) hcon
  · rw [hpg] at h
    injection h with h
    subst h
    rw [he]
    dsimp only
    refine ⟨pyGet_jset_self _ _ _, newTags_strs _, ?_, ⟨fun _ => hne, fun _ => rfl⟩⟩
    constructor
    · intro hcon
      exact absurd hcon (by simp)
    · intro hcon
      have hg := congrArg (fun mm => pyGet mm "tags") hcon
      dsimp only at hg
      rw [pyGet_jset_self, hpg] at hg
      exact absurd hg hne

/-- C8 witness: the list `["keep", null, 7]` becomes `["keep", "7"]` and the
cell metadata is flagged as changed. -/
theorem C8_witness :
    pyGet demoTagsM "tags" = .arr demoTags ∧
    fixTags demoTagsM = ([("tags", J.arr [J.str "keep", J.str "7"])], true) ∧
    (pyGet (fixTags demoTagsM).1 "tags"
        = .arr ((demoTags.filter fun t => !isNull t).map fun t => J.str (to_s t)) ∧
     (∀ x ∈ (demoTags.filter fun t => !isNull t).map fun t => J.str (to_s t),
        ∃ s, x = J.str s) ∧
     ((fixTags demoTagsM).2 = false ↔ (fixTags demoTagsM).1 = demoTagsM) ∧
     ((fixTags demoTagsM).2 = true ↔
       J.arr ((demoTags.filter fun t => !isNull t).map fun t => J.str (to_s t))
         ≠ .arr demoTags)) :=
  ⟨by decide, by decide,
   C8_tags_normalized (show pyGet demoTagsM "tags" = .arr demoTags from by decide)⟩

/-- C9: the scalar coercer — a Lean function, hence total and deterministic
on every JSON value — returns a string input unchanged, concatenates the
recursive coercions of the elements of a list input in order with no
separator, and renders any other input through the canonical textual
representation. -/
theorem C9_to_s_total :
    (∀ s, to_s (.str s) = s) ∧
    (∀ xs, to_s (.arr xs) = (xs.map to_s).foldr (fun a b => a ++ b) "") ∧
    (∀ v : J, (∀ s, v ≠ .str s) → (∀ xs, v ≠ .arr xs) → to_s v = pyRepr v) := by
  refine ⟨fun s => rfl, fun xs => to_sList_foldr xs, fun v hs ha => ?_⟩
  cases v
  case str s => exact absurd rfl (hs s)
  case arr xs => exact absurd rfl (ha xs)
  all_goals rfl

/-- C10: lines 97-99 read `outs = c.get("outputs") or []` and run the loop
over the fresh list without storing it back, so a falsy `outputs` value —
absent, null, the empty list, or any other empty/falsy value such as an
empty mapping — is left exactly as found and does not set `changed`; only a
truthy non-list value is replaced by the empty list and flagged. -/
theorem C10_outputs_falsy_frame (c : JObj) :
    (truthy (pyGet c "outputs") = false → fixOutputsNormalize c = some (c, false)) ∧
    (truthy (pyGet c "outputs") = true → (∀ os, pyGet c "outputs" ≠ .arr os) →
      fixOutputsNormalize c = some (jset c "outputs" (.arr []), true)) := by
  constructor
  · intro hf
    unfold fixOutputsNormalize
    rw [if_neg (by simp [hf])]
  · intro ht hne
    unfold fixOutputsNormalize
    rw [if_pos ht]
    split
    next os heq => exact absurd heq (hne os)
    next => rfl

/-- C10 witness: an absent, null, empty-list and empty-dict `outputs` are
all left as found without flagging; a non-empty dict is replaced by `[]`
and flagged. -/
theorem C10_witness :
    fixOutputsNormalize [("cell_type", J.str "code")]
      = some ([("cell_type", J.str "code")], false) ∧
    fixOutputsNormalize [("outputs", J.null)] = some ([("outputs", J.null)], false) ∧
    fixOutputsNormalize [("outputs", J.arr [])] = some ([("outputs", J.arr [])], false) ∧
    fixOutputsNormalize [("outputs", J.obj [])] = some ([("outputs", J.obj [])], false) ∧
    fixOutputsNormalize [("outputs", J.obj [("a", J.int 1)])]
      = some ([("outputs", J.arr [])], true) := by
  refine ⟨?_, ?_, ?_, ?_, ?_⟩
  · exact (C10_outputs_falsy_frame _).1 (by decide)
  · exact (C10_outputs_falsy_frame _).1 (by decide)
  · exact (C10_outputs_falsy_frame _).1 (by decide)
  · exact (C10_outputs_falsy_frame _).1 (by decide)
  · decide
